import Mathlib

/-!
Shallow embedding of the ndpulsegen instruction compiler, wire codec and
device channel (src/src/ndpulsegen/compiler.py and src/src/ndpulsegen/gui.py),
together with theorems checking the specification's claims about them.

Times are Python integers, modelled as `Int`.  All claims speak about times
given in clock cycles, so the API below is embedded at clock-cycle
granularity (the `time_unit='clock_cycles'` path of the source, where
`int(t)` is the identity on integers).  Python dicts keyed by channel number
are modelled as functions `Nat → Option Bool` (absent key = `none`); the
timeline dict keyed by time is modelled as an association list with distinct
keys, which is what every reachable `Compiler` state has.
-/

namespace NDPulseGen

/-- The four optional flags of a timeline event.  Python keeps a dict holding
only the flags that were explicitly set; `none` models an absent key. -/
structure Flags where
  stop_and_wait : Option Bool
  hardware_trig_out : Option Bool
  notify_computer : Option Bool
  powerline_sync : Option Bool
deriving DecidableEq, Repr

def noFlags : Flags := ⟨none, none, none, none⟩

/-- One timeline entry: `{'states': {}, 'goto': {}, 'flags': {}}`.
The goto dict always receives the keys `t_to` and `counter` together
(`add_goto` is the only writer), so it is an optional pair. -/
structure Update where
  states : Nat → Option Bool
  goto : Option (Int × Int)
  flags : Flags

def emptyUpdate : Update := ⟨fun _ => none, none, noFlags⟩

/-- Modelled from the spec: `encode_instruction` lives in the repository's
`transcode` module, which is not under src/.  The spec (§3) defines an
Instruction as the record (address, duration, full 24-bit state snapshot,
goto target address, goto counter, flag set); we keep the structured record
rather than its byte encoding. -/
structure Instruction where
  address : Nat
  duration : Int
  state : List Bool
  goto_address : Nat
  goto_counter : Int
  flags : Flags
deriving DecidableEq, Repr

/-- Builder state of `Compiler.__init__` (the memoized per-channel handle
cache is omitted: handles carry no state of their own and only delegate to
the compiler, so channel operations are embedded as compiler operations
taking the channel number). -/
structure Compiler where
  updates : List (Int × Update)
  starting_state : Nat → Bool
  instructions : List Instruction
  sequence_duration : Option Int
  final_address : Option Int

/-- `Compiler.__init__`: `starting_state = {i: False for i in range(24)}`. -/
def Compiler.init : Compiler :=
  ⟨[], fun _ => false, [], none, none⟩

/-- Dict lookup on the timeline association list. -/
def lookupUpdate : List (Int × Update) → Int → Option Update
  | [], _ => none
  | p :: l, t => if p.1 = t then some p.2 else lookupUpdate l t

/-- Dict assignment on the timeline association list: replace the entry when
the key is present (keeping its position), append it at the end otherwise
(keeps keys distinct). -/
def setUpdate : List (Int × Update) → Int → Update → List (Int × Update)
  | [], t, u => [(t, u)]
  | p :: l, t, u => if p.1 = t then (t, u) :: l else p :: setUpdate l t u

/-- `new.update(old)` on a single channel-override dict entry. -/
def mergeState (newS oldS : Nat → Option Bool) : Nat → Option Bool :=
  fun i =>
    match newS i with
    | some b => some b
    | none => oldS i

/-- Merge the non-`None` flag arguments into the stored flags dict. -/
def mergeFlags (oldF newF : Flags) : Flags where
  stop_and_wait :=
    match newF.stop_and_wait with
    | some b => some b
    | none => oldF.stop_and_wait
  hardware_trig_out :=
    match newF.hardware_trig_out with
    | some b => some b
    | none => oldF.hardware_trig_out
  notify_computer :=
    match newF.notify_computer with
    | some b => some b
    | none => oldF.notify_computer
  powerline_sync :=
    match newF.powerline_sync with
    | some b => some b
    | none => oldF.powerline_sync

/-- `Compiler.add_update` (clock-cycle path).  The Python code first creates
the entry when absent, then merges the provided channel overrides and the
non-`None` flags; merging an empty dict is a no-op, so the `if state_dict:`
and `if flags:` guards of the source are dropped without observable change. -/
def Compiler.add_update (c : Compiler) (t : Int)
    (state_dict : Nat → Option Bool) (fl : Flags) : Compiler :=
  let u := (lookupUpdate c.updates t).getD emptyUpdate
  let u2 : Update :=
    { states := mergeState state_dict u.states
      goto := u.goto
      flags := mergeFlags u.flags fl }
  { c with updates := setUpdate c.updates t u2 }

/-- `Compiler.add_goto` (clock-cycle path): store the goto on the event at
`t_from - 1`, creating it if needed, then ensure an event exists at `t_to`. -/
def Compiler.add_goto (c : Compiler) (t_from t_to goto_counter : Int) :
    Compiler :=
  let c1 : Compiler :=
    match lookupUpdate c.updates (t_from - 1) with
    | none =>
        { c with updates := (setUpdate c.updates (t_from - 1)
            ⟨fun _ => none, some (t_to, goto_counter), noFlags⟩) }
    | some u =>
        { c with updates := (setUpdate c.updates (t_from - 1)
            ⟨u.states, some (t_to, goto_counter), u.flags⟩) }
  match lookupUpdate c1.updates t_to with
  | none => { c1 with updates := setUpdate c1.updates t_to emptyUpdate }
  | some _ => c1

/-- `Compiler.set_starting_state`: `starting_state.update(state_dict)`. -/
def Compiler.set_starting_state (c : Compiler) (sd : Nat → Option Bool) :
    Compiler :=
  { c with starting_state := fun i => (sd i).getD (c.starting_state i) }

/-- `Compiler.set_sequence_duration` (clock-cycle path). -/
def Compiler.set_sequence_duration (c : Compiler) (d : Int) : Compiler :=
  { c with sequence_duration := some d }

/-- `Compiler.get_final_address`. -/
def Compiler.get_final_address (c : Compiler) : Option Int :=
  c.final_address

/-- A single-channel override dict `{channel: b}`. -/
def singleState (ch : Nat) (b : Bool) : Nat → Option Bool :=
  fun i => if i = ch then some b else none

/-- `Channel.high`. -/
def Compiler.chanHigh (c : Compiler) (ch : Nat) (t : Int) (fl : Flags) :
    Compiler :=
  c.add_update t (singleState ch true) fl

/-- `Channel.low`. -/
def Compiler.chanLow (c : Compiler) (ch : Nat) (t : Int) (fl : Flags) :
    Compiler :=
  c.add_update t (singleState ch false) fl

/-! ### compile -/

inductive CompileErr where
  | padTooSmall
  | missingGotoTarget
deriving DecidableEq, Repr

/-- Order on timeline entries used by `sorted(self.updates.items())`:
Python's sort compares the key first and, the keys being distinct, never
reaches the values. -/
def keyLE (a b : Int × Update) : Prop := a.1 ≤ b.1

instance : DecidableRel keyLE := fun a b => Int.decLe a.1 b.1

instance : IsTotal (Int × Update) keyLE := ⟨fun a b => Int.le_total a.1 b.1⟩

instance : IsTrans (Int × Update) keyLE :=
  ⟨fun _ _ _ h1 h2 => le_trans h1 h2⟩

/-- `sorted(self.updates.items())` (a stable sort by key). -/
def sortByTime (l : List (Int × Update)) : List (Int × Update) :=
  l.insertionSort keyLE

/-- Step 3 of compile: `if sorted_updates[0][0] != 0: sorted_updates.insert(0,
(0, {'states': current_state.copy(), ...}))` — the snapshot of
`starting_state` carried by the synthetic time-0 event. -/
def snapshotUpdate (start : Nat → Bool) : Update :=
  ⟨fun i => some (start i), none, noFlags⟩

def ensureZero (start : Nat → Bool) :
    List (Int × Update) → List (Int × Update)
  | [] => []
  | p :: l => if p.1 = 0 then p :: l else (0, snapshotUpdate start) :: p :: l

/-- `sorted_updates[-1][0]` (0 for the empty list, which compile never asks). -/
def lastTime (l : List (Int × Update)) : Int :=
  match l.getLast? with
  | some p => p.1
  | none => 0

def firstTime (l : List (Int × Update)) : Int :=
  match l.head? with
  | some p => p.1
  | none => 0

/-- `{time: idx for idx, (time, _) in enumerate(sorted_updates)}` — a dict
comprehension keeps the **last** index on a duplicated key, hence the
tail-preferring recursion. -/
def timeToAddress : List (Int × Update) → Int → Option Nat
  | [], _ => none
  | p :: l, t =>
      match timeToAddress l t with
      | some i => some (i + 1)
      | none => if p.1 = t then some 0 else none

/-- `current_state.update(current_update[1]['states'])`. -/
def applyStates (cur : Nat → Bool) (ov : Nat → Option Bool) : Nat → Bool :=
  fun i => (ov i).getD (cur i)

/-- The instruction-emitting walk over consecutive event pairs (the
`for address, (current_update, next_update) in enumerate(zip(...))` loop).
`all` is the full event list the time→address dict was built from; a missing
goto target is the `KeyError` the source would raise. -/
def emitInstrs (allE : List (Int × Update)) :
    List (Int × Update) → Nat → (Nat → Bool) →
    Except CompileErr (List Instruction)
  | [], _, _ => .ok []
  | [_], _, _ => .ok []
  | (t1, u1) :: (t2, u2) :: rest, addr, cur =>
      match timeToAddress allE ((u1.goto.map Prod.fst).getD 0) with
      | none => .error CompileErr.missingGotoTarget
      | some gaddr =>
          match emitInstrs allE ((t2, u2) :: rest) (addr + 1)
              (applyStates cur u1.states) with
          | .error e => .error e
          | .ok tl =>
              .ok (⟨addr, t2 - t1,
                    (List.range 24).map (applyStates cur u1.states), gaddr,
                    (u1.goto.map Prod.snd).getD 0, u1.flags⟩ :: tl)

/-- Tail of `Compiler.compile` after the trailing pad has been determined:
append the sentinel event (`sorted_updates.append(...)`), build the
time→address table over the full list, walk the pairs, record
`final_address = len(instructions) - 1`. -/
def compileRest (c : Compiler) (sorted1 : List (Int × Update))
    (fut pad : Int) : Except CompileErr Compiler :=
  match emitInstrs (sorted1 ++ [(fut + pad, emptyUpdate)])
      (sorted1 ++ [(fut + pad, emptyUpdate)]) 0 c.starting_state with
  | .error e => .error e
  | .ok ins =>
      .ok { c with instructions := ins,
                   final_address := some ((ins.length : Int) - 1) }

/-- `Compiler.compile`.  Python mutates `self` and raises on failure; the
embedding returns the updated builder in `Except` (claims never inspect the
builder after a raise, so the partially mutated state of a failed run is not
preserved).  `self.instructions = []` happens first, then the early return
on an empty timeline; otherwise the events are sorted, the synthetic time-0
event is inserted, the pad is computed (`assert final_update_duration >= 1`
when `sequence_duration` is set) and the walk runs. -/
def Compiler.compile (c : Compiler) : Except CompileErr Compiler :=
  if c.updates.isEmpty then .ok { c with instructions := [] }
  else
    match c.sequence_duration with
    | none =>
        compileRest { c with instructions := [] }
          (ensureZero c.starting_state (sortByTime c.updates))
          (lastTime (ensureZero c.starting_state (sortByTime c.updates))) 1
    | some sd =>
        if 1 ≤ sd - lastTime (ensureZero c.starting_state (sortByTime c.updates))
        then
          compileRest { c with instructions := [] }
            (ensureZero c.starting_state (sortByTime c.updates))
            (lastTime (ensureZero c.starting_state (sortByTime c.updates)))
            (sd - lastTime (ensureZero c.starting_state (sortByTime c.updates)))
        else .error CompileErr.padTooSmall

/-- The trailing-pad value compile computes (`final_update_duration`). -/
def padOf (c : Compiler) : Int :=
  match c.sequence_duration with
  | none => 1
  | some sd => sd - lastTime (ensureZero c.starting_state (sortByTime c.updates))

/-- The full event list compile walks: time-sorted events with the synthetic
time-0 event and the terminal sentinel. -/
def fullEvents (c : Compiler) : List (Int × Update) :=
  ensureZero c.starting_state (sortByTime c.updates) ++
    [(lastTime (ensureZero c.starting_state (sortByTime c.updates)) + padOf c,
      emptyUpdate)]

/-- Running 24-channel state after the first `m` events' overrides have been
applied, seeded from `cur`. -/
def statesThrough (cur : Nat → Bool) (evs : List (Int × Update)) (m : Nat) :
    Nat → Bool :=
  (evs.take m).foldl (fun s p => applyStates s p.2.states) cur

def nodupKeys (l : List (Int × Update)) : Prop :=
  (l.map (fun p => p.1)).Nodup

instance (l : List (Int × Update)) : Decidable (nodupKeys l) := by
  unfold nodupKeys; infer_instance

def timesNonneg (l : List (Int × Update)) : Prop :=
  ∀ p ∈ l, 0 ≤ p.1

instance (l : List (Int × Update)) : Decidable (timesNonneg l) := by
  unfold timesNonneg; infer_instance

/-- Time of the last user-scheduled event (the maximum timeline key once the
keys are nonnegative). -/
def lastScheduledTime (c : Compiler) : Int :=
  lastTime (sortByTime c.updates)

def firstScheduledTime (c : Compiler) : Int :=
  firstTime (sortByTime c.updates)

/-! ### Sorting, lookup and address-table lemmas -/

theorem sortByTime_perm (l : List (Int × Update)) : (sortByTime l).Perm l :=
  List.perm_insertionSort keyLE l

theorem sortByTime_sorted (l : List (Int × Update)) :
    (sortByTime l).Pairwise keyLE :=
  List.sorted_insertionSort keyLE l

theorem sortByTime_length (l : List (Int × Update)) :
    (sortByTime l).length = l.length :=
  (sortByTime_perm l).length_eq

theorem sortByTime_nodupKeys {l : List (Int × Update)} (h : nodupKeys l) :
    nodupKeys (sortByTime l) := by
  unfold nodupKeys at h ⊢
  exact (((sortByTime_perm l).map (fun p => p.1)).nodup_iff).mpr h

theorem sortByTime_nonneg {l : List (Int × Update)} (h : timesNonneg l) :
    timesNonneg (sortByTime l) := fun p hp => h p ((sortByTime_perm l).mem_iff.mp hp)

theorem keys_pairwise_lt {l : List (Int × Update)}
    (hs : l.Pairwise keyLE) (hn : nodupKeys l) :
    l.Pairwise (fun a b => a.1 < b.1) := by
  unfold nodupKeys at hn
  have hne : l.Pairwise (fun a b : Int × Update => a.1 ≠ b.1) :=
    List.pairwise_map.mp hn
  exact (hs.and hne).imp (fun h => lt_of_le_of_ne h.1 h.2)

theorem lastTime_cons_cons (p q : Int × Update) (l : List (Int × Update)) :
    lastTime (p :: q :: l) = lastTime (q :: l) := by
  unfold lastTime
  rw [List.getLast?_cons_cons]

theorem pairwise_le_lastTime :
    ∀ {l : List (Int × Update)}, l.Pairwise keyLE → ∀ p ∈ l, p.1 ≤ lastTime l := by
  intro l
  induction l with
  | nil => intro _ p hp; cases hp
  | cons q l ih =>
    intro h p hp
    cases l with
    | nil =>
      have hpq : p = q := by simpa using hp
      subst hpq
      simp [lastTime]
    | cons x l2 =>
      rw [lastTime_cons_cons]
      rcases List.mem_cons.mp hp with rfl | hp2
      · have h1 : keyLE p x := (List.pairwise_cons.mp h).1 x (by simp)
        have h2 := ih (List.pairwise_cons.mp h).2 x (by simp)
        exact le_trans h1 h2
      · exact ih (List.pairwise_cons.mp h).2 p hp2

theorem lookupUpdate_setUpdate_self :
    ∀ (l : List (Int × Update)) (t : Int) (u : Update),
      lookupUpdate (setUpdate l t u) t = some u := by
  intro l t u
  induction l with
  | nil => simp [setUpdate, lookupUpdate]
  | cons p l ih =>
    by_cases h : p.1 = t
    · simp [setUpdate, h, lookupUpdate]
    · simpa [setUpdate, h, lookupUpdate] using ih

theorem lookupUpdate_setUpdate_ne :
    ∀ (l : List (Int × Update)) (t t2 : Int) (u : Update), t2 ≠ t →
      lookupUpdate (setUpdate l t u) t2 = lookupUpdate l t2 := by
  intro l t t2 u hne
  induction l with
  | nil => simp [setUpdate, lookupUpdate, Ne.symm hne]
  | cons p l ih =>
    by_cases h : p.1 = t
    · have hp2 : p.1 ≠ t2 := by rw [h]; exact Ne.symm hne
      simp [setUpdate, h, lookupUpdate, Ne.symm hne, hp2]
    · by_cases h2 : p.1 = t2
      · simp [setUpdate, h, lookupUpdate, h2, hne]
      · simpa [setUpdate, h, lookupUpdate, h2] using ih

theorem keys_setUpdate_subset :
    ∀ (l : List (Int × Update)) (t : Int) (u : Update),
      ∀ q ∈ setUpdate l t u, q.1 = t ∨ q ∈ l := by
  intro l t u
  induction l with
  | nil => intro q hq; simp [setUpdate] at hq; simp [hq]
  | cons p l ih =>
    intro q hq
    by_cases h : p.1 = t
    · simp only [setUpdate, if_pos h] at hq
      rcases List.mem_cons.mp hq with rfl | hq2
      · exact Or.inl rfl
      · exact Or.inr (List.mem_cons_of_mem _ hq2)
    · simp only [setUpdate, if_neg h] at hq
      rcases List.mem_cons.mp hq with rfl | hq2
      · exact Or.inr (List.mem_cons_self _ _)
      · rcases ih q hq2 with h3 | h3
        · exact Or.inl h3
        · exact Or.inr (List.mem_cons_of_mem _ h3)

theorem nodupKeys_setUpdate :
    ∀ {l : List (Int × Update)} (t : Int) (u : Update), nodupKeys l →
      nodupKeys (setUpdate l t u) := by
  intro l t u h
  induction l with
  | nil => simp [setUpdate, nodupKeys]
  | cons p l ih =>
    unfold nodupKeys at h
    rw [List.map_cons, List.nodup_cons] at h
    by_cases hp : p.1 = t
    · unfold nodupKeys
      simp only [setUpdate, if_pos hp, List.map_cons, List.nodup_cons]
      exact ⟨by rw [← hp]; exact h.1, h.2⟩
    · unfold nodupKeys
      simp only [setUpdate, if_neg hp, List.map_cons, List.nodup_cons]
      constructor
      · intro hmem
        rcases List.mem_map.mp hmem with ⟨q, hq, hqk⟩
        rcases keys_setUpdate_subset l t u q hq with h3 | h3
        · exact hp (hqk ▸ h3 ▸ rfl)
        · exact h.1 (hqk ▸ List.mem_map_of_mem (fun p => p.1) h3)
      · exact ih h.2

theorem timesNonneg_setUpdate {l : List (Int × Update)} {t : Int}
    (u : Update) (h : timesNonneg l) (ht : 0 ≤ t) :
    timesNonneg (setUpdate l t u) := by
  intro q hq
  rcases keys_setUpdate_subset l t u q hq with h2 | h2
  · exact h2 ▸ ht
  · exact h q h2

theorem lookupUpdate_of_mem_nodup :
    ∀ {l : List (Int × Update)} {t : Int} {u : Update}, nodupKeys l →
      (t, u) ∈ l → lookupUpdate l t = some u := by
  intro l
  induction l with
  | nil => intro t u _ h; cases h
  | cons p l ih =>
    intro t u hnd hmem
    unfold nodupKeys at hnd
    rw [List.map_cons, List.nodup_cons] at hnd
    rcases List.mem_cons.mp hmem with rfl | hmem2
    · simp [lookupUpdate]
    · have hne : p.1 ≠ t := by
        intro hEq
        exact hnd.1 (hEq ▸ List.mem_map_of_mem (fun p => p.1) hmem2)
      simpa [lookupUpdate, hne] using ih hnd.2 hmem2

theorem mem_of_lookupUpdate :
    ∀ {l : List (Int × Update)} {t : Int} {u : Update},
      lookupUpdate l t = some u → (t, u) ∈ l := by
  intro l
  induction l with
  | nil => intro t u h; simp [lookupUpdate] at h
  | cons p l ih =>
    intro t u h
    by_cases hp : p.1 = t
    · rw [lookupUpdate, if_pos hp] at h
      cases h
      exact List.mem_cons.mpr (Or.inl (by rw [← hp]))
    · rw [lookupUpdate, if_neg hp] at h
      exact List.mem_cons_of_mem _ (ih h)

theorem lookupUpdate_eq_none_iff {l : List (Int × Update)} {t : Int} :
    lookupUpdate l t = none ↔ t ∉ l.map (fun p => p.1) := by
  induction l with
  | nil => simp [lookupUpdate]
  | cons p l ih =>
    by_cases hp : p.1 = t
    · simp [lookupUpdate, hp]
    · rw [lookupUpdate, if_neg hp]
      simp only [List.map_cons, List.mem_cons]
      constructor
      · intro h hmem
        rcases hmem with h2 | h2
        · exact hp h2.symm
        · exact ih.mp h h2
      · intro h
        exact ih.mpr (fun h2 => h (Or.inr h2))

theorem timeToAddress_eq_none_iff :
    ∀ {l : List (Int × Update)} {t : Int},
      timeToAddress l t = none ↔ t ∉ l.map (fun p => p.1) := by
  intro l
  induction l with
  | nil => simp [timeToAddress]
  | cons p l ih =>
    intro t
    rw [timeToAddress]
    cases h : timeToAddress l t with
    | some i =>
      have hmem : t ∈ l.map (fun p => p.1) := by
        by_contra hc
        rw [ih.mpr hc] at h
        cases h
      simp [hmem]
    | none =>
      have hnm := ih.mp h
      by_cases hp : p.1 = t
      · simp [hp]
      · simp [if_neg hp, hnm, Ne.symm hp]

theorem timeToAddress_isSome_of_mem {l : List (Int × Update)} {t : Int}
    (h : t ∈ l.map (fun p => p.1)) : ∃ k, timeToAddress l t = some k := by
  cases h2 : timeToAddress l t with
  | some k => exact ⟨k, rfl⟩
  | none => exact absurd (timeToAddress_eq_none_iff.mp h2) (by simp [h])

theorem timeToAddress_of_getElem? :
    ∀ {l : List (Int × Update)} {k : Nat} {t : Int} {u : Update},
      nodupKeys l → l[k]? = some (t, u) → timeToAddress l t = some k := by
  intro l
  induction l with
  | nil => intro k t u _ h; simp at h
  | cons p l ih =>
    intro k t u hnd h
    unfold nodupKeys at hnd
    rw [List.map_cons, List.nodup_cons] at hnd
    cases k with
    | zero =>
      rw [List.getElem?_cons_zero] at h
      cases h
      have : timeToAddress l t = none :=
        timeToAddress_eq_none_iff.mpr hnd.1
      simp [timeToAddress, this]
    | succ k =>
      rw [List.getElem?_cons_succ] at h
      have := ih hnd.2 h
      simp [timeToAddress, this]

/-! ### Properties of the instruction-emitting walk -/

theorem statesThrough_cons (cur : Nat → Bool) (e : Int × Update)
    (l : List (Int × Update)) (m : Nat) :
    statesThrough cur (e :: l) (m + 1) =
      statesThrough (applyStates cur e.2.states) l m := rfl

theorem emitInstrs_cons_cons_ok {allE : List (Int × Update)}
    {t1 t2 : Int} {u1 u2 : Update} {rest : List (Int × Update)}
    {addr : Nat} {cur : Nat → Bool} {ins : List Instruction}
    (h : emitInstrs allE ((t1, u1) :: (t2, u2) :: rest) addr cur = .ok ins) :
    ∃ g tl, timeToAddress allE ((u1.goto.map Prod.fst).getD 0) = some g ∧
      emitInstrs allE ((t2, u2) :: rest) (addr + 1)
        (applyStates cur u1.states) = .ok tl ∧
      ins = ⟨addr, t2 - t1, (List.range 24).map (applyStates cur u1.states),
             g, (u1.goto.map Prod.snd).getD 0, u1.flags⟩ :: tl := by
  rw [emitInstrs] at h
  split at h
  · cases h
  · split at h
    · cases h
    · injection h with h
      refine ⟨_, _, ?_, ?_, h.symm⟩ <;> assumption

theorem emitInstrs_ok_length (allE : List (Int × Update)) :
    ∀ (evs : List (Int × Update)) (addr : Nat) (cur : Nat → Bool)
      (ins : List Instruction),
      emitInstrs allE evs addr cur = .ok ins → ins.length = evs.length - 1
  | [], _, _, ins => by
      intro h
      rw [emitInstrs] at h
      injection h with h
      simp [← h]
  | [e], _, _, ins => by
      intro h
      rw [emitInstrs] at h
      injection h with h
      simp [← h]
  | (t1, u1) :: (t2, u2) :: rest, addr, cur, ins => by
      intro h
      obtain ⟨g, tl, _, hrec, rfl⟩ := emitInstrs_cons_cons_ok h
      have ih := emitInstrs_ok_length allE ((t2, u2) :: rest) (addr + 1)
        (applyStates cur u1.states) tl hrec
      simp only [List.length_cons, ih]
      omega

theorem emitInstrs_ok_getElem? (allE : List (Int × Update)) :
    ∀ (evs : List (Int × Update)) (addr : Nat) (cur : Nat → Bool)
      (ins : List Instruction),
      emitInstrs allE evs addr cur = .ok ins →
      ∀ (k : Nat) (e1 e2 : Int × Update),
        evs[k]? = some e1 → evs[k + 1]? = some e2 →
        ∃ g, timeToAddress allE ((e1.2.goto.map Prod.fst).getD 0) = some g ∧
          ins[k]? = some ⟨addr + k, e2.1 - e1.1,
            (List.range 24).map (statesThrough cur evs (k + 1)),
            g, (e1.2.goto.map Prod.snd).getD 0, e1.2.flags⟩
  | [], _, _, _ => by
      intro _ k e1 e2 h1 _
      simp at h1
  | [e], _, _, _ => by
      intro _ k e1 e2 _ h2
      rcases k with _ | k <;> simp at h2
  | (t1, u1) :: (t2, u2) :: rest, addr, cur, ins => by
      intro h k e1 e2 h1 h2
      obtain ⟨g, tl, hg, hrec, rfl⟩ := emitInstrs_cons_cons_ok h
      cases k with
      | zero =>
        rw [List.getElem?_cons_zero] at h1
        injection h1 with h1
        subst h1
        rw [List.getElem?_cons_succ, List.getElem?_cons_zero] at h2
        injection h2 with h2
        subst h2
        exact ⟨g, hg, by simp [statesThrough]⟩
      | succ k =>
        rw [List.getElem?_cons_succ] at h1
        rw [List.getElem?_cons_succ] at h2
        obtain ⟨g2, hg2, hins⟩ := emitInstrs_ok_getElem? allE
          ((t2, u2) :: rest) (addr + 1) (applyStates cur u1.states) tl hrec
          k e1 e2 h1 h2
        refine ⟨g2, hg2, ?_⟩
        rw [List.getElem?_cons_succ]
        rw [show addr + 1 + k = addr + (k + 1) from by omega] at hins
        exact hins

theorem emitInstrs_ok_sum (allE : List (Int × Update)) :
    ∀ (evs : List (Int × Update)) (addr : Nat) (cur : Nat → Bool)
      (ins : List Instruction),
      emitInstrs allE evs addr cur = .ok ins →
      (ins.map (fun i => i.duration)).sum = lastTime evs - firstTime evs
  | [], _, _, ins => by
      intro h
      rw [emitInstrs] at h
      injection h with h
      simp [← h, lastTime, firstTime]
  | [e], _, _, ins => by
      intro h
      rw [emitInstrs] at h
      injection h with h
      simp [← h, lastTime, firstTime]
  | (t1, u1) :: (t2, u2) :: rest, addr, cur, ins => by
      intro h
      obtain ⟨g, tl, _, hrec, rfl⟩ := emitInstrs_cons_cons_ok h
      have ih := emitInstrs_ok_sum allE ((t2, u2) :: rest) (addr + 1)
        (applyStates cur u1.states) tl hrec
      rw [lastTime_cons_cons]
      simp only [List.map_cons, List.sum_cons, ih, firstTime, List.head?]
      ring

/-! ### Structure of the full event list -/

theorem sortByTime_ne_nil {c : Compiler} (hne : c.updates.isEmpty = false) :
    sortByTime c.updates ≠ [] := by
  intro h
  have := sortByTime_length c.updates
  rw [h] at this
  cases hu : c.updates with
  | nil => rw [hu] at hne; cases hne
  | cons p l => rw [hu] at this; simp at this

theorem ensureZero_head (start : Nat → Bool) (l : List (Int × Update))
    (hl : l ≠ []) :
    (∃ rest, ensureZero start l = (0, snapshotUpdate start) :: rest ∧
       rest = l ∧ firstTime l ≠ 0) ∨
    (ensureZero start l = l ∧ firstTime l = 0) := by
  cases l with
  | nil => exact absurd rfl hl
  | cons p l =>
    by_cases h : p.1 = 0
    · right
      constructor
      · simp [ensureZero, h]
      · simp [firstTime, List.head?, h]
    · left
      refine ⟨p :: l, ?_, rfl, ?_⟩
      · simp [ensureZero, h]
      · simp [firstTime, List.head?, h]

theorem fullEvents_eq (c : Compiler) :
    fullEvents c = ensureZero c.starting_state (sortByTime c.updates) ++
      [(lastTime (ensureZero c.starting_state (sortByTime c.updates)) + padOf c,
        emptyUpdate)] := rfl

theorem ensureZero_ne_nil (start : Nat → Bool) {l : List (Int × Update)}
    (hl : l ≠ []) : ensureZero start l ≠ [] := by
  cases l with
  | nil => exact absurd rfl hl
  | cons p l =>
    by_cases h : p.1 = 0 <;> simp [ensureZero, h]

theorem fullEvents_head {c : Compiler} (hne : c.updates.isEmpty = false) :
    ∃ u rest, fullEvents c = (0, u) :: rest := by
  have hs := sortByTime_ne_nil hne
  rw [fullEvents_eq]
  rcases ensureZero_head c.starting_state (sortByTime c.updates) hs with
    ⟨rest, hz, _, _⟩ | ⟨hz, h0⟩
  · rw [hz]
    exact ⟨_, _, rfl⟩
  · rw [hz]
    cases hl : sortByTime c.updates with
    | nil => exact absurd hl hs
    | cons p l =>
      rw [hl] at h0
      simp only [firstTime, List.head?] at h0
      have hp : p = (0, p.2) := by rw [← h0]
      rw [List.cons_append, hp]
      exact ⟨_, _, rfl⟩

theorem ensureZero_pairwise_lt (start : Nat → Bool) {l : List (Int × Update)}
    (hlt : l.Pairwise (fun a b => a.1 < b.1)) (hnn : timesNonneg l) :
    (ensureZero start l).Pairwise (fun a b => a.1 < b.1) := by
  cases l with
  | nil => simp [ensureZero]
  | cons p l =>
    by_cases h : p.1 = 0
    · simpa [ensureZero, h] using hlt
    · simp only [ensureZero, if_neg h]
      rw [List.pairwise_cons]
      refine ⟨?_, hlt⟩
      intro q hq
      have hq0 : 0 ≤ q.1 := hnn q hq
      rcases List.mem_cons.mp hq with rfl | hq2
      · exact lt_of_le_of_ne hq0 (Ne.symm h)
      · have hpq : p.1 < q.1 := (List.pairwise_cons.mp hlt).1 q hq2
        have hp0 : 0 ≤ p.1 := hnn p (List.mem_cons_self _ _)
        omega

theorem ensureZero_mem {start : Nat → Bool} {l : List (Int × Update)}
    {q : Int × Update} (hq : q ∈ ensureZero start l) :
    q ∈ l ∨ (q = (0, snapshotUpdate start) ∧ firstTime l ≠ 0) := by
  cases l with
  | nil => simp [ensureZero] at hq
  | cons p l =>
    by_cases h : p.1 = 0
    · simp only [ensureZero, if_pos h] at hq
      exact Or.inl hq
    · simp only [ensureZero, if_neg h] at hq
      rcases List.mem_cons.mp hq with rfl | hq2
      · exact Or.inr ⟨rfl, by simpa [firstTime, List.head?] using h⟩
      · exact Or.inl hq2

theorem ensureZero_mem_of_mem {start : Nat → Bool} {l : List (Int × Update)}
    {q : Int × Update} (hq : q ∈ l) : q ∈ ensureZero start l := by
  cases l with
  | nil => cases hq
  | cons p l =>
    by_cases h : p.1 = 0
    · simpa [ensureZero, h] using hq
    · simp only [ensureZero, if_neg h]
      exact List.mem_cons_of_mem _ hq

theorem lastTime_ensureZero (start : Nat → Bool) {l : List (Int × Update)}
    (hl : l ≠ []) : lastTime (ensureZero start l) = lastTime l := by
  cases l with
  | nil => exact absurd rfl hl
  | cons p l =>
    by_cases h : p.1 = 0
    · simp [ensureZero, h]
    · simp only [ensureZero, if_neg h]
      exact lastTime_cons_cons _ _ _

theorem fullEvents_pairwise_lt {c : Compiler} (hnd : nodupKeys c.updates)
    (hnn : timesNonneg c.updates) (hpad : 1 ≤ padOf c) :
    (fullEvents c).Pairwise (fun a b => a.1 < b.1) := by
  have hE1 := ensureZero_pairwise_lt c.starting_state
    (keys_pairwise_lt (sortByTime_sorted c.updates) (sortByTime_nodupKeys hnd))
    (sortByTime_nonneg hnn)
  rw [fullEvents_eq, List.pairwise_append]
  refine ⟨hE1, by simp, ?_⟩
  intro a ha b hb
  have hb2 := List.mem_singleton.mp hb
  subst hb2
  have hmax := pairwise_le_lastTime (hE1.imp (fun h => le_of_lt h)) a ha
  simp only
  omega

theorem fullEvents_nodupKeys {c : Compiler} (hnd : nodupKeys c.updates)
    (hnn : timesNonneg c.updates) (hpad : 1 ≤ padOf c) :
    nodupKeys (fullEvents c) := by
  have h := fullEvents_pairwise_lt hnd hnn hpad
  unfold nodupKeys
  exact (List.pairwise_map.mpr h).imp (fun hlt => ne_of_lt hlt)

/-! ### Inversion of compile -/

theorem compileRest_ok_inv {c : Compiler} {sorted1 : List (Int × Update)}
    {fut pad : Int} {c' : Compiler}
    (h : compileRest c sorted1 fut pad = .ok c') :
    ∃ ins,
      emitInstrs (sorted1 ++ [(fut + pad, emptyUpdate)])
        (sorted1 ++ [(fut + pad, emptyUpdate)]) 0 c.starting_state = .ok ins ∧
      c' = { c with instructions := ins,
                    final_address := some ((ins.length : Int) - 1) } := by
  rw [compileRest] at h
  split at h
  · cases h
  · injection h with h
    exact ⟨_, by assumption, h.symm⟩

theorem compile_ok_inv {c c' : Compiler} (hne : c.updates.isEmpty = false)
    (h : c.compile = .ok c') :
    emitInstrs (fullEvents c) (fullEvents c) 0 c.starting_state =
      .ok c'.instructions ∧
    c'.final_address = some ((c'.instructions.length : Int) - 1) ∧
    c'.updates = c.updates ∧
    c'.starting_state = c.starting_state ∧
    c'.sequence_duration = c.sequence_duration ∧
    1 ≤ padOf c := by
  rw [Compiler.compile, if_neg (by simp [hne])] at h
  split at h
  · rename_i hsd
    obtain ⟨ins, hemit, rfl⟩ := compileRest_ok_inv h
    have hp : padOf c = 1 := by rw [padOf, hsd]
    rw [fullEvents_eq, hp]
    exact ⟨hemit, rfl, rfl, rfl, rfl, by omega⟩
  · rename_i sd hsd
    split at h
    · rename_i hge
      obtain ⟨ins, hemit, rfl⟩ := compileRest_ok_inv h
      have hp : padOf c =
          sd - lastTime (ensureZero c.starting_state (sortByTime c.updates)) := by
        rw [padOf, hsd]
      rw [fullEvents_eq, hp]
      exact ⟨hemit, rfl, rfl, rfl, rfl, by omega⟩
    · cases h

theorem compile_error_of_pad {c : Compiler} {sd : Int}
    (hne : c.updates.isEmpty = false) (hsd : c.sequence_duration = some sd)
    (hlt : sd - lastScheduledTime c < 1) :
    c.compile = .error CompileErr.padTooSmall := by
  have hfut : lastTime (ensureZero c.starting_state (sortByTime c.updates)) =
      lastScheduledTime c :=
    lastTime_ensureZero _ (sortByTime_ne_nil hne)
  rw [Compiler.compile, if_neg (by simp [hne]), hsd]
  dsimp only
  rw [if_neg (by rw [hfut]; omega)]

/-! ### Further helpers for the claims -/

theorem lastTime_append_single (l : List (Int × Update)) (p : Int × Update) :
    lastTime (l ++ [p]) = p.1 := by
  unfold lastTime
  rw [List.getLast?_concat]

theorem firstTime_zero_of_mem {l : List (Int × Update)}
    (hs : l.Pairwise keyLE) (hnn : timesNonneg l)
    (h0 : (0 : Int) ∈ l.map (fun p => p.1)) : firstTime l = 0 := by
  cases l with
  | nil => simp at h0
  | cons p l =>
    rcases List.mem_map.mp h0 with ⟨q, hq, hq0⟩
    have h1 : p.1 ≤ q.1 := by
      rcases List.mem_cons.mp hq with rfl | hq2
      · exact le_refl _
      · exact (List.pairwise_cons.mp hs).1 q hq2
    have h2 : 0 ≤ p.1 := hnn p (List.mem_cons_self _ _)
    simp only [firstTime, List.head?]
    omega

theorem keys_sortByTime (l : List (Int × Update)) (t : Int) :
    t ∈ (sortByTime l).map (fun p => p.1) ↔ t ∈ l.map (fun p => p.1) :=
  ((sortByTime_perm l).map (fun p => p.1)).mem_iff

theorem fullEvents_length_eq (c : Compiler) :
    (fullEvents c).length =
      (ensureZero c.starting_state (sortByTime c.updates)).length + 1 := by
  rw [fullEvents_eq, List.length_append]
  rfl

theorem fullEvents_length_ge_two {c : Compiler}
    (hne : c.updates.isEmpty = false) : 2 ≤ (fullEvents c).length := by
  rw [fullEvents_length_eq]
  have h1 := List.length_pos.mpr
    (ensureZero_ne_nil c.starting_state (sortByTime_ne_nil hne))
  omega

theorem fullEvents_getElem_mem_updates {c : Compiler}
    (hnd : nodupKeys c.updates) (hnn : timesNonneg c.updates)
    {k : Nat} {t : Int} {u : Update}
    (hE : (fullEvents c)[k]? = some (t, u))
    (hkey : t ∈ c.updates.map (fun p => p.1))
    (hk1 : k + 1 < (fullEvents c).length) :
    lookupUpdate c.updates t = some u := by
  have hlen := fullEvents_length_eq c
  have hk2 : k < (ensureZero c.starting_state (sortByTime c.updates)).length := by
    omega
  rw [fullEvents_eq, List.getElem?_append, if_pos hk2] at hE
  have hmem := List.getElem?_mem hE
  rcases ensureZero_mem hmem with hS | ⟨hsn, hft⟩
  · exact lookupUpdate_of_mem_nodup hnd
      ((sortByTime_perm c.updates).mem_iff.mp hS)
  · have ht : t = 0 := by
      have := congrArg Prod.fst hsn
      simpa using this
    have h0 : (0 : Int) ∈ (sortByTime c.updates).map (fun p => p.1) :=
      (keys_sortByTime c.updates 0).mpr (ht ▸ hkey)
    exact absurd
      (firstTime_zero_of_mem (sortByTime_sorted _) (sortByTime_nonneg hnn) h0)
      hft

/-! ### Claim C1 -/

/-- The spec's end-to-end example builder:
`add_update(0, {0: True}); add_update(5, {0: False})`. -/
def exC1 : Compiler :=
  (Compiler.init.add_update 0 (singleState 0 true) noFlags).add_update 5
    (singleState 0 false) noFlags

/-- C1: for every builder with a non-empty timeline on which compile
succeeds, compile emits exactly one instruction per consecutive pair of the
full time-sorted event list (synthetic time-0 event and terminal sentinel
included): the `k`-th instruction has address `k`, duration equal to the next
event's time minus the current event's time, and as its 24-channel state the
running state seeded from `starting_state` with the first `k+1` events'
overrides applied in time order; `final_address` is the number of
instructions minus one.  In particular `add_update(0,{0:true});
add_update(5,{0:false}); compile()` yields exactly the instructions
(address 0, duration 5, channel 0 high) and (address 1, duration 1,
channel 0 low) with `final_address = 1`. -/
theorem claim_C1 (c c' : Compiler) (hne : c.updates.isEmpty = false)
    (hok : c.compile = .ok c') :
    (c'.instructions.length = (fullEvents c).length - 1 ∧
     (∀ (k : Nat) (e1 e2 : Int × Update),
        (fullEvents c)[k]? = some e1 → (fullEvents c)[k + 1]? = some e2 →
        ∃ g cnt, c'.instructions[k]? = some ⟨k, e2.1 - e1.1,
          (List.range 24).map
            (statesThrough c.starting_state (fullEvents c) (k + 1)),
          g, cnt, e1.2.flags⟩) ∧
     c'.final_address = some ((c'.instructions.length : Int) - 1)) ∧
    (exC1.compile.map (fun d =>
        (d.instructions.map (fun i => (i.address, i.duration, i.state)),
         d.final_address)) =
      .ok ([(0, 5, true :: List.replicate 23 false),
            (1, 1, List.replicate 24 false)], some 1)) := by
  obtain ⟨hemit, hfinal, _, _, _, _⟩ := compile_ok_inv hne hok
  refine ⟨⟨emitInstrs_ok_length _ _ _ _ _ hemit, ?_, hfinal⟩, by rfl⟩
  intro k e1 e2 h1 h2
  obtain ⟨g, hg, hins⟩ :=
    emitInstrs_ok_getElem? _ _ _ _ _ hemit k e1 e2 h1 h2
  rw [Nat.zero_add] at hins
  exact ⟨g, _, hins⟩

def exC1' : Compiler :=
  match exC1.compile with
  | .ok d => d
  | .error _ => Compiler.init

theorem claim_C1_witness :
    exC1.updates.isEmpty = false ∧ exC1.compile = .ok exC1' ∧
    exC1'.final_address = some ((exC1'.instructions.length : Int) - 1) :=
  ⟨by decide, by rfl, (claim_C1 exC1 exC1' (by decide) (by rfl)).1.2.2⟩

/-! ### Claim C10 -/

/-- C10: calling compile with an empty timeline empties the stored
instruction list but does not touch `final_address` (still `None` right
after `__init__`), `starting_state`, `sequence_duration` or the timeline. -/
theorem claim_C10 (c : Compiler) (h : c.updates.isEmpty = true) :
    c.compile = .ok { c with instructions := [] } ∧
    c.compile.map Compiler.get_final_address = .ok c.final_address ∧
    Compiler.init.final_address = none := by
  have h1 : c.compile = .ok { c with instructions := [] } := by
    rw [Compiler.compile, if_pos (by simp [h])]
  exact ⟨h1, by rw [h1]; rfl, rfl⟩

theorem claim_C10_witness :
    Compiler.init.updates.isEmpty = true ∧
    Compiler.init.compile = .ok { Compiler.init with instructions := [] } :=
  ⟨by decide, (claim_C10 Compiler.init (by decide)).1⟩

/-! ### Claim C2 -/

/-- C2: if no event is scheduled at time 0 the first compiled instruction's
24-channel state equals `starting_state` (the synthetic time-0 event carries
a full snapshot of it); if an event is scheduled at time 0 the first
instruction's state agrees with `starting_state` on every channel that event
does not override. -/
theorem claim_C2 (c c' : Compiler) (hne : c.updates.isEmpty = false)
    (hnd : nodupKeys c.updates) (hnn : timesNonneg c.updates)
    (hok : c.compile = .ok c') :
    ((lookupUpdate c.updates 0).isNone = true →
       c'.instructions.head?.map (fun i => i.state) =
         some ((List.range 24).map c.starting_state)) ∧
    (∀ i : Nat, i < 24 →
       (lookupUpdate c.updates 0).map (fun u => u.states i) = some none →
       c'.instructions.head?.map (fun ins => ins.state.getD i false) =
         some (c.starting_state i)) := by
  obtain ⟨hemit, _, _, _, _, hpad⟩ := compile_ok_inv hne hok
  obtain ⟨u0, rest, hEhead⟩ := fullEvents_head hne
  have hE2 := fullEvents_length_ge_two hne
  have hE0 : (fullEvents c)[0]? = some (0, u0) := by rw [hEhead]; simp
  have hE1ex : ∃ e2, (fullEvents c)[1]? = some e2 :=
    ⟨_, List.getElem?_eq_getElem (by omega)⟩
  obtain ⟨e2, hE1⟩ := hE1ex
  obtain ⟨g, hg, hins⟩ :=
    emitInstrs_ok_getElem? _ _ _ _ _ hemit 0 (0, u0) e2 hE0 hE1
  have hst : statesThrough c.starting_state (fullEvents c) 1 =
      applyStates c.starting_state u0.states := by
    rw [hEhead]; rfl
  rw [hst] at hins
  constructor
  · intro hA
    have h0notin : (0 : Int) ∉ c.updates.map (fun p => p.1) :=
      lookupUpdate_eq_none_iff.mp (Option.isNone_iff_eq_none.mp hA)
    -- the time-0 event must be the synthetic snapshot
    have hk2 : 0 < (ensureZero c.starting_state (sortByTime c.updates)).length := by
      have := fullEvents_length_eq c
      omega
    have hE0b := hE0
    rw [fullEvents_eq, List.getElem?_append, if_pos hk2] at hE0b
    have hmem := List.getElem?_mem hE0b
    have husnap : u0 = snapshotUpdate c.starting_state := by
      rcases ensureZero_mem hmem with hS | ⟨hsn, _⟩
      · exact absurd
          ((keys_sortByTime c.updates 0).mp
            (List.mem_map_of_mem (fun p => p.1) hS))
          h0notin
      · have := congrArg Prod.snd hsn
        simpa using this
    have hmapeq : (List.range 24).map
        (applyStates c.starting_state (snapshotUpdate c.starting_state).states) =
        (List.range 24).map c.starting_state :=
      List.map_congr_left (fun a _ => rfl)
    rw [List.head?_eq_getElem?, hins, husnap]
    rw [show Option.map (fun i => i.state)
        (some (⟨0 + 0, e2.1 - 0,
          List.map (applyStates c.starting_state
            (snapshotUpdate c.starting_state).states) (List.range 24), g,
          (Option.map Prod.snd (snapshotUpdate c.starting_state).goto).getD 0,
          (snapshotUpdate c.starting_state).flags⟩ : Instruction)) =
        some (List.map (applyStates c.starting_state
          (snapshotUpdate c.starting_state).states) (List.range 24)) from rfl]
    rw [hmapeq]
  · intro i hi hB
    cases lk : lookupUpdate c.updates 0 with
    | none => rw [lk] at hB; cases hB
    | some u =>
      rw [lk] at hB
      have hB2 : u.states i = none := by
        have : some (u.states i) = some none := hB
        injection this
      have hkey : (0 : Int) ∈ c.updates.map (fun p => p.1) :=
        List.mem_map_of_mem (fun p => p.1) (mem_of_lookupUpdate lk)
      have hlk0 : lookupUpdate c.updates 0 = some u0 :=
        fullEvents_getElem_mem_updates hnd hnn hE0 hkey (by omega)
      have huu : u0 = u := by
        rw [lk] at hlk0
        injection hlk0 with h
        exact h.symm
      rw [List.head?_eq_getElem?, hins]
      have hgetD : (List.map (applyStates c.starting_state u0.states)
          (List.range 24)).getD i false =
          applyStates c.starting_state u0.states i := by
        rw [List.getD_eq_getElem?_getD, List.getElem?_map,
          List.getElem?_range hi]
        rfl
      show some ((List.map (applyStates c.starting_state u0.states)
        (List.range 24)).getD i false) = some (c.starting_state i)
      rw [hgetD, huu]
      show some ((u.states i).getD (c.starting_state i)) =
        some (c.starting_state i)
      rw [hB2]
      rfl

/-- A builder with no event at time 0, used to exercise claim C2. -/
def exC2 : Compiler :=
  Compiler.init.add_update 5 (singleState 3 true) noFlags

def exC2' : Compiler :=
  match exC2.compile with
  | .ok d => d
  | .error _ => Compiler.init

theorem claim_C2_witness :
    (exC2.updates.isEmpty = false ∧ nodupKeys exC2.updates ∧
     timesNonneg exC2.updates ∧ (lookupUpdate exC2.updates 0).isNone = true) ∧
    exC2'.instructions.head?.map (fun i => i.state) =
      some ((List.range 24).map exC2.starting_state) :=
  ⟨⟨by decide, by decide, by decide, by decide⟩,
   (claim_C2 exC2 exC2' (by decide) (by decide) (by decide) (by rfl)).1
     (by decide)⟩

/-! ### Claim C4 -/

/-- The sorted event list after the synthetic time-0 insertion. -/
def sortedEvents (c : Compiler) : List (Int × Update) :=
  ensureZero c.starting_state (sortByTime c.updates)

theorem fullEvents_eq2 (c : Compiler) :
    fullEvents c = sortedEvents c ++
      [(lastTime (sortedEvents c) + padOf c, emptyUpdate)] := rfl

/-- The last instruction of a successful compile carries the trailing pad as
its duration, and the other durations sum to the last scheduled event time. -/
theorem last_duration_and_sum {c c' : Compiler}
    (hne : c.updates.isEmpty = false) (hok : c.compile = .ok c') :
    c'.instructions.getLast?.map (fun i => i.duration) = some (padOf c) ∧
    (c'.instructions.dropLast.map (fun i => i.duration)).sum =
      lastScheduledTime c := by
  obtain ⟨hemit, _, _, _, _, hpad⟩ := compile_ok_inv hne hok
  have hE1ne : sortedEvents c ≠ [] :=
    ensureZero_ne_nil _ (sortByTime_ne_nil hne)
  obtain ⟨q, hq⟩ : ∃ q, (sortedEvents c).getLast? = some q := by
    cases hql : (sortedEvents c).getLast? with
    | some q => exact ⟨q, rfl⟩
    | none =>
      have := List.getLast?_isSome.mpr hE1ne
      rw [hql] at this
      cases this
  have hlenE := fullEvents_length_eq c
  have hlen : c'.instructions.length = (fullEvents c).length - 1 :=
    emitInstrs_ok_length _ _ _ _ _ hemit
  have hn1 : 1 ≤ (sortedEvents c).length := List.length_pos.mpr hE1ne
  have hEk : (fullEvents c)[(sortedEvents c).length - 1]? = some q := by
    rw [fullEvents_eq2, List.getElem?_append, if_pos (by omega)]
    rw [← List.getLast?_eq_getElem?]
    exact hq
  have hEk1 : (fullEvents c)[(sortedEvents c).length]? =
      some (lastTime (sortedEvents c) + padOf c, emptyUpdate) := by
    rw [fullEvents_eq2, List.getElem?_append_right (le_refl _)]
    simp
  obtain ⟨g, hg, hins⟩ := emitInstrs_ok_getElem? _ _ _ _ _ hemit
    ((sortedEvents c).length - 1) q
    (lastTime (sortedEvents c) + padOf c, emptyUpdate) hEk
    (by rw [show (sortedEvents c).length - 1 + 1 = (sortedEvents c).length
          from by omega]
        exact hEk1)
  have hq1 : q.1 = lastTime (sortedEvents c) := by
    unfold lastTime
    rw [show (sortedEvents c).getLast? = some q from hq]
  have hlast : c'.instructions.getLast? =
      c'.instructions[(sortedEvents c).length - 1]? := by
    rw [List.getLast?_eq_getElem?, hlen, hlenE]
    congr 1
  have hlastdur : c'.instructions.getLast?.map (fun i => i.duration) =
      some (padOf c) := by
    rw [hlast, hins]
    show some ((lastTime (sortedEvents c) + padOf c, emptyUpdate).1 - q.1) =
      some (padOf c)
    have harith : lastTime (sortedEvents c) + padOf c -
        lastTime (sortedEvents c) = padOf c := by ring
    rw [show (lastTime (sortedEvents c) + padOf c, emptyUpdate).1 =
      lastTime (sortedEvents c) + padOf c from rfl, hq1, harith]
  refine ⟨hlastdur, ?_⟩
  have htot := emitInstrs_ok_sum _ _ _ _ _ hemit
  obtain ⟨u0, rest, hEhead⟩ := fullEvents_head hne
  have hfirst : firstTime (fullEvents c) = 0 := by
    rw [hEhead]
    rfl
  have hlastT : lastTime (fullEvents c) =
      lastTime (sortedEvents c) + padOf c := by
    rw [fullEvents_eq2, lastTime_append_single]
  have hinsne : c'.instructions ≠ [] := by
    have h2 := fullEvents_length_ge_two hne
    intro h0
    rw [h0] at hlen
    simp at hlen
    omega
  have hdecomp := List.dropLast_append_getLast hinsne
  have hsplit : ((c'.instructions.dropLast ++
      [c'.instructions.getLast hinsne]).map (fun i => i.duration)).sum =
      lastTime (fullEvents c) - firstTime (fullEvents c) := by
    rw [hdecomp]
    exact htot
  rw [List.map_append, List.sum_append] at hsplit
  have hgl : (c'.instructions.getLast hinsne).duration = padOf c := by
    have h3 := hlastdur
    rw [List.getLast?_eq_getLast _ hinsne] at h3
    simp only [Option.map_some'] at h3
    injection h3
  have hfin : lastTime (sortedEvents c) = lastScheduledTime c :=
    lastTime_ensureZero _ (sortByTime_ne_nil hne)
  rw [hfirst, hlastT] at hsplit
  simp only [List.map_cons, List.map_nil, List.sum_cons, List.sum_nil,
    hgl] at hsplit
  rw [← hfin]
  omega

/-- C4 counterexample input: a single event scheduled at time 3. -/
def exC4 : Compiler :=
  Compiler.init.add_update 3 (singleState 0 true) noFlags

/-- C4 counterexample: for the builder with one event at time 3, the
instruction durations excluding the trailing pad sum to 3, while the last
scheduled event time minus the first scheduled event time is 3 - 3 = 0, so
the claim's sum formula fails. -/
theorem claim_C4_counterexample :
    exC4.compile.map (fun d =>
      (d.instructions.dropLast.map (fun i => i.duration)).sum) = .ok 3 ∧
    lastScheduledTime exC4 = 3 ∧ firstScheduledTime exC4 = 3 ∧
    (3 : Int) ≠ 3 - 3 := by
  refine ⟨by rfl, by rfl, by rfl, by decide⟩

/-- C4 (amended): every instruction of a successful compile has duration
≥ 1; the durations excluding the trailing pad sum to the last scheduled
event time minus the time of the first *compiled* event — the latter is 0
because of the synthetic time-0 event, so the sum equals the last scheduled
event time (not last minus first *scheduled* time); with
`sequence_duration` unset the trailing pad is exactly 1 cycle; with
`sequence_duration` set and `sequence_duration - last_event_time < 1`,
compile raises instead of producing a shorter pad. -/
theorem claim_C4 (c : Compiler) (hne : c.updates.isEmpty = false)
    (hnd : nodupKeys c.updates) (hnn : timesNonneg c.updates) :
    (∀ c', c.compile = .ok c' →
       (∀ i ∈ c'.instructions, 1 ≤ i.duration) ∧
       (c'.instructions.dropLast.map (fun i => i.duration)).sum =
         lastScheduledTime c ∧
       (c.sequence_duration = none →
          c'.instructions.getLast?.map (fun i => i.duration) = some 1)) ∧
    (∀ sd, c.sequence_duration = some sd → sd - lastScheduledTime c < 1 →
       c.compile = .error CompileErr.padTooSmall) := by
  constructor
  · intro c' hok
    obtain ⟨hemit, _, _, _, _, hpad⟩ := compile_ok_inv hne hok
    obtain ⟨hlastdur, hsum⟩ := last_duration_and_sum hne hok
    have hlen := emitInstrs_ok_length _ _ _ _ _ hemit
    have hE2 := fullEvents_length_ge_two hne
    refine ⟨?_, hsum, ?_⟩
    · intro i hmem
      obtain ⟨k, hk⟩ := List.mem_iff_getElem?.mp hmem
      have hkl : k < c'.instructions.length := (List.getElem?_eq_some.mp hk).1
      have hklt : k < (fullEvents c).length := by omega
      have hk1 : k + 1 < (fullEvents c).length := by omega
      obtain ⟨e1, he1⟩ : ∃ e1, (fullEvents c)[k]? = some e1 :=
        ⟨_, List.getElem?_eq_getElem hklt⟩
      obtain ⟨e2, he2⟩ : ∃ e2, (fullEvents c)[k + 1]? = some e2 :=
        ⟨_, List.getElem?_eq_getElem hk1⟩
      obtain ⟨g, hg, hins⟩ :=
        emitInstrs_ok_getElem? _ _ _ _ _ hemit k e1 e2 he1 he2
      rw [hk] at hins
      injection hins with hieq
      have hlt := fullEvents_pairwise_lt hnd hnn hpad
      have he1b := he1
      have he2b := he2
      rw [List.getElem?_eq_getElem hklt] at he1b
      rw [List.getElem?_eq_getElem hk1] at he2b
      injection he1b with he1b
      injection he2b with he2b
      have hadj : e1.1 < e2.1 := by
        rw [← he1b, ← he2b]
        exact List.pairwise_iff_getElem.mp hlt k (k + 1) hklt hk1 (by omega)
      rw [hieq]
      show 1 ≤ e2.1 - e1.1
      omega
    · intro hsdn
      have hp1 : padOf c = 1 := by rw [padOf, hsdn]
      rw [hlastdur, hp1]
  · intro sd hsd hlt
    exact compile_error_of_pad hne hsd hlt

def exC4b : Compiler :=
  Compiler.init.add_update 0 (singleState 2 true) noFlags |>.add_update 7
    (singleState 2 false) noFlags

def exC4b' : Compiler :=
  match exC4b.compile with
  | .ok d => d
  | .error _ => Compiler.init

theorem claim_C4_witness :
    (exC4b.updates.isEmpty = false ∧ nodupKeys exC4b.updates ∧
     timesNonneg exC4b.updates ∧ exC4b.compile = .ok exC4b') ∧
    (exC4b'.instructions.dropLast.map (fun i => i.duration)).sum =
      lastScheduledTime exC4b :=
  ⟨⟨by decide, by decide, by decide, by rfl⟩,
   (((claim_C4 exC4b (by decide) (by decide) (by decide)).1 exC4b'
      (by rfl)).2).1⟩

/-! ### Claim C3 -/

theorem add_goto_lookup_from (c : Compiler) (tf tt cnt : Int) :
    ∃ u, lookupUpdate (c.add_goto tf tt cnt).updates (tf - 1) = some u ∧
      u.goto = some (tt, cnt) := by
  unfold Compiler.add_goto
  cases h1 : lookupUpdate c.updates (tf - 1) with
  | none =>
    dsimp only
    cases h2 : lookupUpdate (setUpdate c.updates (tf - 1)
        ⟨fun _ => none, some (tt, cnt), noFlags⟩) tt with
    | none =>
      dsimp only
      have hv1 := lookupUpdate_setUpdate_self c.updates (tf - 1)
        ⟨fun _ => none, some (tt, cnt), noFlags⟩
      have he : tt ≠ tf - 1 := by
        intro hEq
        rw [hEq] at h2 hv1
        rw [h2] at hv1
        cases hv1
      rw [lookupUpdate_setUpdate_ne _ _ _ _ (Ne.symm he)]
      exact ⟨_, hv1, rfl⟩
    | some u2 =>
      dsimp only
      exact ⟨_, lookupUpdate_setUpdate_self _ _ _, rfl⟩
  | some u =>
    dsimp only
    cases h2 : lookupUpdate (setUpdate c.updates (tf - 1)
        ⟨u.states, some (tt, cnt), u.flags⟩) tt with
    | none =>
      dsimp only
      have hv1 := lookupUpdate_setUpdate_self c.updates (tf - 1)
        ⟨u.states, some (tt, cnt), u.flags⟩
      have he : tt ≠ tf - 1 := by
        intro hEq
        rw [hEq] at h2 hv1
        rw [h2] at hv1
        cases hv1
      rw [lookupUpdate_setUpdate_ne _ _ _ _ (Ne.symm he)]
      exact ⟨_, hv1, rfl⟩
    | some u2 =>
      dsimp only
      exact ⟨_, lookupUpdate_setUpdate_self _ _ _, rfl⟩

theorem add_goto_lookup_to (c : Compiler) (tf tt cnt : Int) :
    (lookupUpdate (c.add_goto tf tt cnt).updates tt).isSome = true := by
  unfold Compiler.add_goto
  cases h1 : lookupUpdate c.updates (tf - 1) with
  | none =>
    dsimp only
    cases h2 : lookupUpdate (setUpdate c.updates (tf - 1)
        ⟨fun _ => none, some (tt, cnt), noFlags⟩) tt with
    | none =>
      dsimp only
      rw [lookupUpdate_setUpdate_self]
      rfl
    | some u2 =>
      dsimp only
      rw [h2]
      rfl
  | some u =>
    dsimp only
    cases h2 : lookupUpdate (setUpdate c.updates (tf - 1)
        ⟨u.states, some (tt, cnt), u.flags⟩) tt with
    | none =>
      dsimp only
      rw [lookupUpdate_setUpdate_self]
      rfl
    | some u2 =>
      dsimp only
      rw [h2]
      rfl

theorem add_goto_nodup {c : Compiler} (tf tt cnt : Int)
    (hnd : nodupKeys c.updates) :
    nodupKeys (c.add_goto tf tt cnt).updates := by
  unfold Compiler.add_goto
  cases h1 : lookupUpdate c.updates (tf - 1) with
  | none =>
    dsimp only
    cases h2 : lookupUpdate (setUpdate c.updates (tf - 1)
        ⟨fun _ => none, some (tt, cnt), noFlags⟩) tt with
    | none =>
      dsimp only
      exact nodupKeys_setUpdate _ _ (nodupKeys_setUpdate _ _ hnd)
    | some u2 =>
      dsimp only
      exact nodupKeys_setUpdate _ _ hnd
  | some u =>
    dsimp only
    cases h2 : lookupUpdate (setUpdate c.updates (tf - 1)
        ⟨u.states, some (tt, cnt), u.flags⟩) tt with
    | none =>
      dsimp only
      exact nodupKeys_setUpdate _ _ (nodupKeys_setUpdate _ _ hnd)
    | some u2 =>
      dsimp only
      exact nodupKeys_setUpdate _ _ hnd

theorem add_goto_nonneg {c : Compiler} {tf tt : Int} (cnt : Int)
    (hnn : timesNonneg c.updates) (htf : 1 ≤ tf) (htt : 0 ≤ tt) :
    timesNonneg (c.add_goto tf tt cnt).updates := by
  have h1 : (0 : Int) ≤ tf - 1 := by omega
  unfold Compiler.add_goto
  cases hl1 : lookupUpdate c.updates (tf - 1) with
  | none =>
    dsimp only
    cases hl2 : lookupUpdate (setUpdate c.updates (tf - 1)
        ⟨fun _ => none, some (tt, cnt), noFlags⟩) tt with
    | none =>
      dsimp only
      exact timesNonneg_setUpdate _ (timesNonneg_setUpdate _ hnn h1) htt
    | some u2 =>
      dsimp only
      exact timesNonneg_setUpdate _ hnn h1
  | some u =>
    dsimp only
    cases hl2 : lookupUpdate (setUpdate c.updates (tf - 1)
        ⟨u.states, some (tt, cnt), u.flags⟩) tt with
    | none =>
      dsimp only
      exact timesNonneg_setUpdate _ (timesNonneg_setUpdate _ hnn h1) htt
    | some u2 =>
      dsimp only
      exact timesNonneg_setUpdate _ hnn h1

theorem updates_ne_nil_of_lookup {l : List (Int × Update)} {t : Int}
    (h : (lookupUpdate l t).isSome = true) : l.isEmpty = false := by
  cases l with
  | nil => simp [lookupUpdate] at h
  | cons p l => rfl

theorem key_mem_fullEvents {c : Compiler} {t : Int}
    (h : t ∈ c.updates.map (fun p => p.1)) :
    t ∈ (fullEvents c).map (fun p => p.1) := by
  rcases List.mem_map.mp h with ⟨q, hq, hq1⟩
  have h2 : q ∈ sortByTime c.updates := (sortByTime_perm c.updates).mem_iff.mpr hq
  have h3 : q ∈ sortedEvents c := ensureZero_mem_of_mem h2
  have h4 : q ∈ fullEvents c := by
    rw [fullEvents_eq2]
    exact List.mem_append_left _ h3
  exact hq1 ▸ List.mem_map_of_mem (fun p => p.1) h4

/-- C3: after `add_goto(t_from, t_to, counter)` (times in clock cycles,
`t_from ≥ 1`, `t_to ≥ 0`), a (possibly empty) timeline event exists at
`t_to`; on a successful compile, the instruction generated from the event at
time `t_from - 1` carries goto target equal to the address assigned to the
event at `t_to` and goto counter equal to `counter`; and any event carrying
no goto is compiled with goto target address 0 and counter 0. -/
theorem claim_C3 (c : Compiler) (tf tt cnt : Int) (c' : Compiler)
    (hnd : nodupKeys c.updates) (hnn : timesNonneg c.updates)
    (htf : 1 ≤ tf) (htt : 0 ≤ tt)
    (hok : (c.add_goto tf tt cnt).compile = .ok c') :
    ((lookupUpdate (c.add_goto tf tt cnt).updates tt).isSome = true) ∧
    (∀ k : Nat,
       ((fullEvents (c.add_goto tf tt cnt))[k]?).map (fun e => e.1) =
         some (tf - 1) →
       ∃ a, timeToAddress (fullEvents (c.add_goto tf tt cnt)) tt = some a ∧
         c'.instructions[k]?.map (fun i => (i.goto_address, i.goto_counter)) =
           some (a, cnt)) ∧
    (∀ k : Nat, k + 1 < (fullEvents (c.add_goto tf tt cnt)).length →
       ((fullEvents (c.add_goto tf tt cnt))[k]?).map (fun e => e.2.goto) =
         some none →
       c'.instructions[k]?.map (fun i => (i.goto_address, i.goto_counter)) =
         some (0, 0)) := by
  have hto := add_goto_lookup_to c tf tt cnt
  have hnd2 := add_goto_nodup tf tt cnt hnd
  have hnn2 := add_goto_nonneg cnt hnn htf htt
  have hne2 := updates_ne_nil_of_lookup hto
  obtain ⟨hemit, _, _, _, _, hpad⟩ := compile_ok_inv hne2 hok
  have hlen := emitInstrs_ok_length _ _ _ _ _ hemit
  have hlenE := fullEvents_length_eq (c.add_goto tf tt cnt)
  refine ⟨hto, ?_, ?_⟩
  · intro k hk
    cases hE : (fullEvents (c.add_goto tf tt cnt))[k]? with
    | none => rw [hE] at hk; cases hk
    | some e1 =>
      rw [hE] at hk
      have he1t : e1.1 = tf - 1 := by
        have : some e1.1 = some (tf - 1) := hk
        injection this
      obtain ⟨uf, hluf, hufg⟩ := add_goto_lookup_from c tf tt cnt
      -- the event at t_from - 1 is a scheduled one, hence not the sentinel
      have hkey : tf - 1 ∈ (c.add_goto tf tt cnt).updates.map (fun p => p.1) :=
        List.mem_map_of_mem (fun p => p.1) (mem_of_lookupUpdate hluf)
      have hkl : k < (fullEvents (c.add_goto tf tt cnt)).length :=
        (List.getElem?_eq_some.mp hE).1
      have hk1 : k + 1 < (fullEvents (c.add_goto tf tt cnt)).length := by
        by_contra hcon
        have h9 : (fullEvents (c.add_goto tf tt cnt)).length =
            (sortedEvents (c.add_goto tf tt cnt)).length + 1 :=
          fullEvents_length_eq (c.add_goto tf tt cnt)
        have hkeq : k = (sortedEvents (c.add_goto tf tt cnt)).length := by
          omega
        rw [fullEvents_eq2,
          List.getElem?_append_right (by omega), hkeq] at hE
        simp only [Nat.sub_self, List.getElem?_cons_zero] at hE
        injection hE with hE
        have hsent : e1.1 =
            lastTime (sortedEvents (c.add_goto tf tt cnt)) +
              padOf (c.add_goto tf tt cnt) := by
          rw [← hE]
        -- but t_from - 1 is bounded by the last scheduled time
        obtain ⟨q, hqmem, hq1⟩ := List.mem_map.mp hkey
        have hqs : q ∈ sortedEvents (c.add_goto tf tt cnt) :=
          ensureZero_mem_of_mem
            ((sortByTime_perm _).mem_iff.mpr hqmem)
        have hle : q.1 ≤ lastTime (sortedEvents (c.add_goto tf tt cnt)) := by
          refine pairwise_le_lastTime ?_ q hqs
          exact (ensureZero_pairwise_lt (c.add_goto tf tt cnt).starting_state
            (keys_pairwise_lt (sortByTime_sorted _) (sortByTime_nodupKeys hnd2))
            (sortByTime_nonneg hnn2)).imp (fun h => le_of_lt h)
        rw [hq1] at hle
        rw [he1t] at hsent
        omega
      obtain ⟨e2, hE2⟩ : ∃ e2,
          (fullEvents (c.add_goto tf tt cnt))[k + 1]? = some e2 :=
        ⟨_, List.getElem?_eq_getElem hk1⟩
      have hue : e1.2 = uf := by
        have h5 : lookupUpdate (c.add_goto tf tt cnt).updates e1.1 =
            some e1.2 := by
          refine fullEvents_getElem_mem_updates hnd2 hnn2 ?_ ?_ hk1
          · rw [hE]
          · rw [he1t]; exact hkey
        rw [he1t, hluf] at h5
        injection h5 with h5
        exact h5.symm
      obtain ⟨g, hg, hins⟩ :=
        emitInstrs_ok_getElem? _ _ _ _ _ hemit k e1 e2 hE hE2
      rw [hue, hufg] at hg
      refine ⟨g, hg, ?_⟩
      rw [hins]
      simp only [Option.map_some']
      rw [hue, hufg]
      rfl
  · intro k hk1 hgoto
    cases hE : (fullEvents (c.add_goto tf tt cnt))[k]? with
    | none => rw [hE] at hgoto; cases hgoto
    | some e1 =>
      rw [hE] at hgoto
      have hgn : e1.2.goto = none := by
        have : some e1.2.goto = some none := hgoto
        injection this
      obtain ⟨e2, hE2⟩ : ∃ e2,
          (fullEvents (c.add_goto tf tt cnt))[k + 1]? = some e2 :=
        ⟨_, List.getElem?_eq_getElem hk1⟩
      obtain ⟨g, hg, hins⟩ :=
        emitInstrs_ok_getElem? _ _ _ _ _ hemit k e1 e2 hE hE2
      -- the address of time 0 is 0
      obtain ⟨u0, rest, hEhead⟩ := fullEvents_head hne2
      have hE0 : (fullEvents (c.add_goto tf tt cnt))[0]? = some (0, u0) := by
        rw [hEhead]; simp
      have htta0 : timeToAddress (fullEvents (c.add_goto tf tt cnt)) 0 =
          some 0 :=
        timeToAddress_of_getElem? (fullEvents_nodupKeys hnd2 hnn2 hpad) hE0
      rw [hgn] at hg
      have hgz : g = 0 := by
        simp only [Option.map_none', Option.getD_none] at hg
        rw [htta0] at hg
        injection hg with hg
        exact hg.symm
      rw [hins]
      simp only [Option.map_some']
      rw [hgn, hgz]
      rfl

/-- Builder exercising C3: `add_update(0,{0:1}); add_update(6,{0:0});
add_goto(t_from=5, t_to=0, counter=3)`. -/
def exC3 : Compiler :=
  ((Compiler.init.add_update 0 (singleState 0 true) noFlags).add_update 6
    (singleState 0 false) noFlags).add_goto 5 0 3

def exC3' : Compiler :=
  match exC3.compile with
  | .ok d => d
  | .error _ => Compiler.init

theorem claim_C3_witness :
    (nodupKeys ((Compiler.init.add_update 0 (singleState 0 true)
        noFlags).add_update 6 (singleState 0 false) noFlags).updates ∧
     exC3.compile = .ok exC3' ∧
     ((fullEvents exC3)[1]?).map (fun e => e.1) = some (5 - 1)) ∧
    (∃ a, timeToAddress (fullEvents exC3) 0 = some a ∧
       exC3'.instructions[1]?.map (fun i => (i.goto_address, i.goto_counter)) =
         some (a, 3)) :=
  ⟨⟨by decide, by rfl, by rfl⟩,
   (claim_C3 ((Compiler.init.add_update 0 (singleState 0 true)
        noFlags).add_update 6 (singleState 0 false) noFlags) 5 0 3 exC3'
      (by decide) (by decide) (by decide) (by decide) (by rfl)).2.1 1
     (by rfl)⟩

/-! ### Channel pulse scheduling (`Channel._pulse`) -/

inductive PulseErr where
  | nonPositiveSecond
  | badFlagsMode
deriving DecidableEq, Repr

/-- `int(round(x / Compiler.CLOCK_PERIOD))` applied to an integer that is in
fact already a clock-cycle count.  For |x| ≤ 9·10^7 the double division
`x / 1e-8` rounds to exactly x·10^8, so the conversion is modelled as exact
multiplication; it is only ever evaluated at such small inputs below. -/
def secondsToCycles (x : Int) : Int := x * 100000000

/-- One repetition of the two-level waveform without flags, advancing
`pulse_start` by `duration_first + duration_second` (the plain loop bodies
of `_pulse`). -/
def pulseRepsPlain (ch : Nat) (lvl1 lvl2 : Bool) (df ds : Int) :
    Nat → Compiler → Int → Compiler × Int
  | 0, c, start => (c, start)
  | n + 1, c, start =>
      pulseRepsPlain ch lvl1 lvl2 df ds n
        ((c.add_update start (singleState ch lvl1) noFlags).add_update
          (start + df) (singleState ch lvl2) noFlags)
        (start + df + ds)

/-- One repetition with the flags on the leading edge (the
`flags_mode='every'` loop body of `_pulse`). -/
def pulseRepsFlag (ch : Nat) (lvl1 lvl2 : Bool) (df ds : Int) (fl : Flags) :
    Nat → Compiler → Int → Compiler × Int
  | 0, c, start => (c, start)
  | n + 1, c, start =>
      pulseRepsFlag ch lvl1 lvl2 df ds fl n
        ((c.add_update start (singleState ch lvl1) fl).add_update
          (start + df) (singleState ch lvl2) noFlags)
        (start + df + ds)

/-- `Channel._pulse` (clock-cycle path).  `firstHigh` is
`first_segment_high`; `pulse_high`/`pulse_low` call this with `true`/`false`.
The `flags_mode='end'` branch reproduces the source's line
`self.compiler.add_update(pulse_start, {self.channel: first_segment_level})`,
which omits `time_unit='clock_cycles'` and therefore re-converts the
already-converted `pulse_start` as seconds. -/
def Compiler.pulse (c : Compiler) (ch : Nat) (firstHigh : Bool)
    (t df ds N : Int) (mode : String) (fl : Flags) :
    Except PulseErr (Compiler × Int) :=
  if N < 1 then .ok (c, 0)
  else if 1 < N ∧ ds ≤ 0 then .error PulseErr.nonPositiveSecond
  else if mode = "start" then
    .ok ((pulseRepsPlain ch firstHigh (!firstHigh) df ds (N - 1).toNat
        ((c.add_update t (singleState ch firstHigh) fl).add_update (t + df)
          (singleState ch (!firstHigh)) noFlags)
        (t + (df + ds))).1,
      if N = 1 then df else (N - 1) * (df + ds) + df)
  else if mode = "every" then
    .ok ((pulseRepsFlag ch firstHigh (!firstHigh) df ds fl N.toNat c t).1,
      if N = 1 then df else (N - 1) * (df + ds) + df)
  else if mode = "end" then
    .ok ((((pulseRepsPlain ch firstHigh (!firstHigh) df ds
          (N - 1).toNat c t).1.add_update
        (secondsToCycles (pulseRepsPlain ch firstHigh (!firstHigh) df ds
          (N - 1).toNat c t).2)
        (singleState ch firstHigh) noFlags).add_update
        ((pulseRepsPlain ch firstHigh (!firstHigh) df ds
          (N - 1).toNat c t).2 + df)
        (singleState ch (!firstHigh)) fl),
      if N = 1 then df else (N - 1) * (df + ds) + df)
  else .error PulseErr.badFlagsMode

/-! ### Claim C7 -/

/-- C7: `_pulse` returns 0 scheduling nothing when `N < 1`; raises when
`N > 1` with `duration_second ≤ 0`; raises on an unrecognized `flags_mode`;
and otherwise returns `(N-1)·(duration_first+duration_second) +
duration_first` clock cycles. -/
theorem claim_C7 (c : Compiler) (ch : Nat) (firstHigh : Bool)
    (t df ds N : Int) (mode : String) (fl : Flags) :
    (N < 1 → c.pulse ch firstHigh t df ds N mode fl = .ok (c, 0)) ∧
    (1 < N → ds ≤ 0 →
       c.pulse ch firstHigh t df ds N mode fl =
         .error PulseErr.nonPositiveSecond) ∧
    (1 ≤ N → ¬(1 < N ∧ ds ≤ 0) →
       mode ≠ "start" → mode ≠ "every" → mode ≠ "end" →
       c.pulse ch firstHigh t df ds N mode fl =
         .error PulseErr.badFlagsMode) ∧
    (1 ≤ N → ¬(1 < N ∧ ds ≤ 0) →
       (mode = "start" ∨ mode = "every" ∨ mode = "end") →
       (c.pulse ch firstHigh t df ds N mode fl).map (fun p => p.2) =
         .ok ((N - 1) * (df + ds) + df)) := by
  refine ⟨?_, ?_, ?_, ?_⟩
  · intro h
    rw [Compiler.pulse, if_pos h]
  · intro h1 h2
    rw [Compiler.pulse, if_neg (by omega), if_pos ⟨h1, h2⟩]
  · intro hN hnds h1 h2 h3
    rw [Compiler.pulse, if_neg (by omega), if_neg hnds, if_neg h1, if_neg h2,
      if_neg h3]
  · intro hN hnds hm
    have htot : ∀ e : Except PulseErr (Compiler × Int), ∀ cx : Compiler,
        e = .ok (cx, if N = 1 then df else (N - 1) * (df + ds) + df) →
        e.map (fun p => p.2) = .ok ((N - 1) * (df + ds) + df) := by
      intro e cx he
      rw [he]
      by_cases h1 : N = 1
      · subst h1
        show Except.ok df = Except.ok ((1 - 1) * (df + ds) + df)
        congr 1
        ring
      · rw [if_neg h1]
        rfl
    rcases hm with rfl | rfl | rfl
    · exact htot _ _ (by rw [Compiler.pulse, if_neg (by omega), if_neg hnds,
        if_pos rfl])
    · exact htot _ _ (by rw [Compiler.pulse, if_neg (by omega), if_neg hnds,
        if_neg (by decide), if_pos rfl])
    · exact htot _ _ (by rw [Compiler.pulse, if_neg (by omega), if_neg hnds,
        if_neg (by decide), if_neg (by decide), if_pos rfl])

theorem claim_C7_witness :
    ((0 : Int) < 1 ∧
     Compiler.init.pulse 0 true 0 2 3 0 "start" noFlags =
       .ok (Compiler.init, 0)) ∧
    (1 ≤ (3 : Int) ∧ ¬(1 < (3 : Int) ∧ (3 : Int) ≤ 0) ∧
     (Compiler.init.pulse 0 true 0 2 3 3 "every" noFlags).map
       (fun p => p.2) = .ok ((3 - 1) * (2 + 3) + 2)) :=
  ⟨⟨by decide,
    (claim_C7 Compiler.init 0 true 0 2 3 0 "start" noFlags).1 (by decide)⟩,
   ⟨by decide, by decide,
    (claim_C7 Compiler.init 0 true 0 2 3 3 "every" noFlags).2.2.2 (by decide)
      (by decide) (Or.inr (Or.inl rfl))⟩⟩

/-! ### Claim C6 -/

/-- The pulse call exhibiting the `flags_mode='end'` slip:
`pulse_high(t=1, duration_first=2, duration_second=0, N=1,
flags_mode='end')` with times in clock cycles. -/
def pulseBugInput : Except PulseErr (Compiler × Int) :=
  Compiler.init.pulse 0 true 1 2 0 1 "end" noFlags

/-- C6: the claim requires the final repetition's active-level edge at time
`t + (N-1)(duration_first+duration_second)`; for
`pulse_high(t=1, duration_first=2, N=1, flags_mode='end')` that is time 1,
but the code schedules no update at time 1 — the edge lands at time
100000000 because the source's line 270 omits `time_unit='clock_cycles'`
and re-converts the clock-cycle value 1 as seconds.  The trailing edge at
time 3 and the returned total of 2 cycles are as claimed. -/
theorem claim_C6_bug :
    pulseBugInput.map (fun p =>
      ((lookupUpdate p.1.updates 1).isNone,
       (lookupUpdate p.1.updates 100000000).map (fun u => u.states 0),
       (lookupUpdate p.1.updates 3).map (fun u => u.states 0),
       p.2)) =
    .ok (true, some (some true), some (some false), 2) := by
  rfl

/-! ### Wire Codec

Modelled from the spec: the repository's `transcode` module (the Wire Codec)
is imported by `compiler.py` and `gui.py` but is not under src/.  The seven
inbound message categories and their fields are taken from §4.2 of the
specification; the exact byte widths are the spec's stated open question, so
they are chosen here to cover the stated domains (addresses 2 bytes,
timing/counter fields 8 bytes, the 24-channel state 3 bytes, booleans and
enums 1 byte) with encoder and decoder kept consistent. -/

def bytesOfNat : Nat → Nat → List Nat
  | 0, _ => []
  | k + 1, v => v % 256 :: bytesOfNat k (v / 256)

def natOfBytes : List Nat → Nat
  | [] => 0
  | b :: bs => b + 256 * natOfBytes bs

/-- Read one `k`-byte little-endian field off the front of a payload. -/
def splitNat (k : Nat) (p : List Nat) : Nat × List Nat :=
  (natOfBytes (p.take k), p.drop k)

def boolByte (b : Bool) : Nat := if b then 1 else 0

def byteToBool (n : Nat) : Bool := n != 0

theorem bytesOfNat_length : ∀ (k v : Nat), (bytesOfNat k v).length = k
  | 0, _ => rfl
  | k + 1, v => by simp [bytesOfNat, bytesOfNat_length k]

theorem natOfBytes_bytesOfNat :
    ∀ (k v : Nat), v < 256 ^ k → natOfBytes (bytesOfNat k v) = v
  | 0, v, h => by
      simp [Nat.pow_zero] at h
      simp [bytesOfNat, natOfBytes, h]
  | k + 1, v, h => by
      have hd : v / 256 < 256 ^ k := by
        rw [Nat.div_lt_iff_lt_mul (by omega)]
        calc v < 256 ^ (k + 1) := h
        _ = 256 ^ k * 256 := by rw [Nat.pow_succ]
      simp only [bytesOfNat, natOfBytes, natOfBytes_bytesOfNat k (v / 256) hd]
      omega

theorem splitNat_bytesOfNat (k v : Nat) (rest : List Nat)
    (h : v < 256 ^ k) :
    splitNat k (bytesOfNat k v ++ rest) = (v, rest) := by
  unfold splitNat
  have ht : ∀ l : List Nat, l.length = k → (l ++ rest).take k = l := by
    intro l hlen
    rw [← hlen, List.take_left]
  have hd : ∀ l : List Nat, l.length = k → (l ++ rest).drop k = rest := by
    intro l hlen
    rw [← hlen, List.drop_left]
  rw [ht _ (bytesOfNat_length k v), hd _ (bytesOfNat_length k v),
    natOfBytes_bytesOfNat _ _ h]

theorem splitNat_bytesOfNat_nil (k v : Nat) (h : v < 256 ^ k) :
    (splitNat k (bytesOfNat k v)).1 = v := by
  have h2 := splitNat_bytesOfNat k v [] h
  rw [List.append_nil] at h2
  rw [h2]

theorem byteToBool_boolByte (b : Bool) : byteToBool (boolByte b) = b := by
  cases b <;> rfl

theorem boolByte_lt (b : Bool) : boolByte b < 256 ^ 1 := by
  cases b <;> decide

/-- `accept_hardware_trigger ∈ {never, always, single_run, once}`. -/
inductive HwTrigMode where
  | never
  | always
  | single_run
  | once
deriving DecidableEq, Repr

def HwTrigMode.toByte : HwTrigMode → Nat
  | .never => 0
  | .always => 1
  | .single_run => 2
  | .once => 3

def HwTrigMode.ofByte (n : Nat) : HwTrigMode :=
  match n with
  | 0 => .never
  | 1 => .always
  | 2 => .single_run
  | _ => .once

theorem hwTrigMode_roundtrip (m : HwTrigMode) :
    HwTrigMode.ofByte m.toByte = m := by
  cases m <;> rfl

theorem hwTrigMode_toByte_lt (m : HwTrigMode) : m.toByte < 256 ^ 1 := by
  cases m <;> decide

/-- `devicestate` telemetry record (§4.2). -/
structure DeviceState where
  running : Bool
  software_run_enable : Bool
  hardware_run_enable : Bool
  current_address : Nat
  final_address : Nat
  accept_hardware_trigger : HwTrigMode
  clock_source : Nat
  notify_on_run_finished : Bool
  notify_on_main_trig_out : Bool
  trigger_out_length : Nat
  trigger_out_delay : Nat
  state : Nat
deriving DecidableEq, Repr

def DeviceState.valid (m : DeviceState) : Prop :=
  m.current_address < 256 ^ 2 ∧ m.final_address < 256 ^ 2 ∧
  m.clock_source < 256 ^ 1 ∧ m.trigger_out_length < 256 ^ 8 ∧
  m.trigger_out_delay < 256 ^ 8 ∧ m.state < 256 ^ 3

instance (m : DeviceState) : Decidable m.valid := by
  unfold DeviceState.valid; infer_instance

def encode_devicestate (m : DeviceState) : List Nat :=
  bytesOfNat 1 (boolByte m.running) ++
  (bytesOfNat 1 (boolByte m.software_run_enable) ++
  (bytesOfNat 1 (boolByte m.hardware_run_enable) ++
  (bytesOfNat 2 m.current_address ++
  (bytesOfNat 2 m.final_address ++
  (bytesOfNat 1 m.accept_hardware_trigger.toByte ++
  (bytesOfNat 1 m.clock_source ++
  (bytesOfNat 1 (boolByte m.notify_on_run_finished) ++
  (bytesOfNat 1 (boolByte m.notify_on_main_trig_out) ++
  (bytesOfNat 8 m.trigger_out_length ++
  (bytesOfNat 8 m.trigger_out_delay ++
  bytesOfNat 3 m.state))))))))))

def decode_devicestate (p : List Nat) : DeviceState :=
  let s1 := splitNat 1 p
  let s2 := splitNat 1 s1.2
  let s3 := splitNat 1 s2.2
  let s4 := splitNat 2 s3.2
  let s5 := splitNat 2 s4.2
  let s6 := splitNat 1 s5.2
  let s7 := splitNat 1 s6.2
  let s8 := splitNat 1 s7.2
  let s9 := splitNat 1 s8.2
  let s10 := splitNat 8 s9.2
  let s11 := splitNat 8 s10.2
  let s12 := splitNat 3 s11.2
  ⟨byteToBool s1.1, byteToBool s2.1, byteToBool s3.1, s4.1, s5.1,
   HwTrigMode.ofByte s6.1, s7.1, byteToBool s8.1, byteToBool s9.1,
   s10.1, s11.1, s12.1⟩

theorem decode_encode_devicestate (m : DeviceState) (h : m.valid) :
    decode_devicestate (encode_devicestate m) = m := by
  obtain ⟨h1, h2, h3, h4, h5, h6⟩ := h
  simp only [decode_devicestate, encode_devicestate,
    splitNat_bytesOfNat _ _ _ (boolByte_lt _),
    splitNat_bytesOfNat _ _ _ (hwTrigMode_toByte_lt _),
    splitNat_bytesOfNat _ _ _ h1, splitNat_bytesOfNat _ _ _ h2,
    splitNat_bytesOfNat _ _ _ h3, splitNat_bytesOfNat _ _ _ h4,
    splitNat_bytesOfNat _ _ _ h5, splitNat_bytesOfNat_nil _ _ h6,
    byteToBool_boolByte, hwTrigMode_roundtrip]

/-- `powerlinestate` telemetry record (§4.2). -/
structure PowerlineState where
  trig_on_powerline : Bool
  powerline_locked : Bool
  powerline_period : Nat
  powerline_trigger_delay : Nat
deriving DecidableEq, Repr

def PowerlineState.valid (m : PowerlineState) : Prop :=
  m.powerline_period < 256 ^ 8 ∧ m.powerline_trigger_delay < 256 ^ 8

instance (m : PowerlineState) : Decidable m.valid := by
  unfold PowerlineState.valid; infer_instance

def encode_powerlinestate (m : PowerlineState) : List Nat :=
  bytesOfNat 1 (boolByte m.trig_on_powerline) ++
  (bytesOfNat 1 (boolByte m.powerline_locked) ++
  (bytesOfNat 8 m.powerline_period ++
  bytesOfNat 8 m.powerline_trigger_delay))

def decode_powerlinestate (p : List Nat) : PowerlineState :=
  let s1 := splitNat 1 p
  let s2 := splitNat 1 s1.2
  let s3 := splitNat 8 s2.2
  let s4 := splitNat 8 s3.2
  ⟨byteToBool s1.1, byteToBool s2.1, s3.1, s4.1⟩

theorem decode_encode_powerlinestate (m : PowerlineState) (h : m.valid) :
    decode_powerlinestate (encode_powerlinestate m) = m := by
  obtain ⟨h1, h2⟩ := h
  simp only [decode_powerlinestate, encode_powerlinestate,
    splitNat_bytesOfNat _ _ _ (boolByte_lt _),
    splitNat_bytesOfNat _ _ _ h1, splitNat_bytesOfNat_nil _ _ h2,
    byteToBool_boolByte]

/-- `devicestate_extras` telemetry record (§4.2). -/
structure DeviceStateExtras where
  run_time : Nat
deriving DecidableEq, Repr

def DeviceStateExtras.valid (m : DeviceStateExtras) : Prop :=
  m.run_time < 256 ^ 8

instance (m : DeviceStateExtras) : Decidable m.valid := by
  unfold DeviceStateExtras.valid; infer_instance

def encode_devicestate_extras (m : DeviceStateExtras) : List Nat :=
  bytesOfNat 8 m.run_time

def decode_devicestate_extras (p : List Nat) : DeviceStateExtras :=
  ⟨(splitNat 8 p).1⟩

theorem decode_encode_devicestate_extras (m : DeviceStateExtras)
    (h : m.valid) :
    decode_devicestate_extras (encode_devicestate_extras m) = m := by
  unfold decode_devicestate_extras encode_devicestate_extras
  rw [splitNat_bytesOfNat_nil _ _ h]

/-- `notification` telemetry record (§4.2). -/
structure Notification where
  address : Nat
  address_notify : Bool
  trigger_notify : Bool
  finished_notify : Bool
  run_time : Nat
deriving DecidableEq, Repr

def Notification.valid (m : Notification) : Prop :=
  m.address < 256 ^ 2 ∧ m.run_time < 256 ^ 8

instance (m : Notification) : Decidable m.valid := by
  unfold Notification.valid; infer_instance

def encode_notification (m : Notification) : List Nat :=
  bytesOfNat 2 m.address ++
  (bytesOfNat 1 (boolByte m.address_notify) ++
  (bytesOfNat 1 (boolByte m.trigger_notify) ++
  (bytesOfNat 1 (boolByte m.finished_notify) ++
  bytesOfNat 8 m.run_time)))

def decode_notification (p : List Nat) : Notification :=
  let s1 := splitNat 2 p
  let s2 := splitNat 1 s1.2
  let s3 := splitNat 1 s2.2
  let s4 := splitNat 1 s3.2
  let s5 := splitNat 8 s4.2
  ⟨s1.1, byteToBool s2.1, byteToBool s3.1, byteToBool s4.1, s5.1⟩

theorem decode_encode_notification (m : Notification) (h : m.valid) :
    decode_notification (encode_notification m) = m := by
  obtain ⟨h1, h2⟩ := h
  simp only [decode_notification, encode_notification,
    splitNat_bytesOfNat _ _ _ (boolByte_lt _),
    splitNat_bytesOfNat _ _ _ h1, splitNat_bytesOfNat_nil _ _ h2,
    byteToBool_boolByte]

/-- `echo` telemetry record (§4.2). -/
structure EchoMsg where
  echoed_byte : Nat
  device_type : Nat
  hardware_version : Nat
  firmware_version : Nat
  serial_number : Nat
deriving DecidableEq, Repr

def EchoMsg.valid (m : EchoMsg) : Prop :=
  m.echoed_byte < 256 ^ 1 ∧ m.device_type < 256 ^ 1 ∧
  m.hardware_version < 256 ^ 1 ∧ m.firmware_version < 256 ^ 1 ∧
  m.serial_number < 256 ^ 8

instance (m : EchoMsg) : Decidable m.valid := by
  unfold EchoMsg.valid; infer_instance

def encode_echo_reply (m : EchoMsg) : List Nat :=
  bytesOfNat 1 m.echoed_byte ++
  (bytesOfNat 1 m.device_type ++
  (bytesOfNat 1 m.hardware_version ++
  (bytesOfNat 1 m.firmware_version ++
  bytesOfNat 8 m.serial_number)))

def decode_echo_reply (p : List Nat) : EchoMsg :=
  let s1 := splitNat 1 p
  let s2 := splitNat 1 s1.2
  let s3 := splitNat 1 s2.2
  let s4 := splitNat 1 s3.2
  let s5 := splitNat 8 s4.2
  ⟨s1.1, s2.1, s3.1, s4.1, s5.1⟩

theorem decode_encode_echo (m : EchoMsg) (h : m.valid) :
    decode_echo_reply (encode_echo_reply m) = m := by
  obtain ⟨h1, h2, h3, h4, h5⟩ := h
  simp only [decode_echo_reply, encode_echo_reply,
    splitNat_bytesOfNat _ _ _ h1, splitNat_bytesOfNat _ _ _ h2,
    splitNat_bytesOfNat _ _ _ h3, splitNat_bytesOfNat _ _ _ h4,
    splitNat_bytesOfNat_nil _ _ h5]

/-- `print` telemetry record: an opaque fixed-length printed value (§4.2). -/
structure EasyPrint where
  easy_printed_value : List Nat
deriving DecidableEq, Repr

def EasyPrint.valid (m : EasyPrint) : Prop :=
  m.easy_printed_value.length = 16 ∧ ∀ b ∈ m.easy_printed_value, b < 256

instance (m : EasyPrint) : Decidable m.valid := by
  unfold EasyPrint.valid; infer_instance

def encode_easyprint (m : EasyPrint) : List Nat := m.easy_printed_value

def decode_easyprint (p : List Nat) : EasyPrint := ⟨p.take 16⟩

theorem decode_encode_easyprint (m : EasyPrint) (h : m.valid) :
    decode_easyprint (encode_easyprint m) = m := by
  unfold decode_easyprint encode_easyprint
  rw [show (16 : Nat) = m.easy_printed_value.length from h.1.symm,
    List.take_length]

/-- `error` telemetry record: an opaque fixed-length payload (§4.2). -/
structure ErrorMsg where
  payload : List Nat
deriving DecidableEq, Repr

def ErrorMsg.valid (m : ErrorMsg) : Prop :=
  m.payload.length = 16 ∧ ∀ b ∈ m.payload, b < 256

instance (m : ErrorMsg) : Decidable m.valid := by
  unfold ErrorMsg.valid; infer_instance

def encode_error_msg (m : ErrorMsg) : List Nat := m.payload

def decode_error_msg (p : List Nat) : ErrorMsg := ⟨p.take 16⟩

theorem decode_encode_error (m : ErrorMsg) (h : m.valid) :
    decode_error_msg (encode_error_msg m) = m := by
  unfold decode_error_msg encode_error_msg
  rw [show (16 : Nat) = m.payload.length from h.1.symm, List.take_length]

/-! ### Claim C5 -/

/-- C5: for every Wire Codec message category and every value whose fields
are in their domains, decoding the encoding returns the value back —
`decode(encode(x)) = x` for all seven inbound categories. -/
theorem claim_C5 :
    (∀ m : DeviceState, m.valid →
       decode_devicestate (encode_devicestate m) = m) ∧
    (∀ m : PowerlineState, m.valid →
       decode_powerlinestate (encode_powerlinestate m) = m) ∧
    (∀ m : DeviceStateExtras, m.valid →
       decode_devicestate_extras (encode_devicestate_extras m) = m) ∧
    (∀ m : Notification, m.valid →
       decode_notification (encode_notification m) = m) ∧
    (∀ m : EchoMsg, m.valid → decode_echo_reply (encode_echo_reply m) = m) ∧
    (∀ m : EasyPrint, m.valid → decode_easyprint (encode_easyprint m) = m) ∧
    (∀ m : ErrorMsg, m.valid → decode_error_msg (encode_error_msg m) = m) :=
  ⟨decode_encode_devicestate, decode_encode_powerlinestate,
   decode_encode_devicestate_extras, decode_encode_notification,
   decode_encode_echo, decode_encode_easyprint, decode_encode_error⟩

def exDeviceState : DeviceState :=
  ⟨true, false, true, 513, 7, HwTrigMode.single_run, 1, true, false,
   1000000, 42, 9437185⟩

def exPowerlineState : PowerlineState := ⟨true, false, 2000000, 12345⟩

def exNotification : Notification := ⟨300, true, false, true, 987654321⟩

def exEchoMsg : EchoMsg := ⟨209, 2, 3, 7, 123456789⟩

def exEasyPrint : EasyPrint :=
  ⟨[104, 101, 108, 108, 111, 0, 0, 0, 0, 0, 0, 0, 0, 0, 0, 33]⟩

def exErrorMsg : ErrorMsg :=
  ⟨[1, 2, 3, 4, 5, 6, 7, 8, 9, 10, 11, 12, 13, 14, 15, 16]⟩

theorem claim_C5_witness :
    (exDeviceState.valid ∧
     decode_devicestate (encode_devicestate exDeviceState) = exDeviceState) ∧
    (exPowerlineState.valid ∧
     decode_powerlinestate (encode_powerlinestate exPowerlineState) =
       exPowerlineState) ∧
    (DeviceStateExtras.valid ⟨77⟩ ∧
     decode_devicestate_extras (encode_devicestate_extras ⟨77⟩) = ⟨77⟩) ∧
    (exNotification.valid ∧
     decode_notification (encode_notification exNotification) =
       exNotification) ∧
    (exEchoMsg.valid ∧
     decode_echo_reply (encode_echo_reply exEchoMsg) = exEchoMsg) ∧
    (exEasyPrint.valid ∧
     decode_easyprint (encode_easyprint exEasyPrint) = exEasyPrint) ∧
    (exErrorMsg.valid ∧
     decode_error_msg (encode_error_msg exErrorMsg) = exErrorMsg) :=
  ⟨⟨by decide, claim_C5.1 exDeviceState (by decide)⟩,
   ⟨by decide, claim_C5.2.1 exPowerlineState (by decide)⟩,
   ⟨by decide, claim_C5.2.2.1 ⟨77⟩ (by decide)⟩,
   ⟨by decide, claim_C5.2.2.2.1 exNotification (by decide)⟩,
   ⟨by decide, claim_C5.2.2.2.2.1 exEchoMsg (by decide)⟩,
   ⟨by decide, claim_C5.2.2.2.2.2.1 exEasyPrint (by decide)⟩,
   ⟨by decide, claim_C5.2.2.2.2.2.2 exErrorMsg (by decide)⟩⟩

/-! ### Device Channel: the background reader loop (`SerialWorker.run`)

The serial byte stream is modelled as a list of observable read outcomes: a
byte, a timeout (pyserial returns fewer bytes than asked), or a raised
`SerialException`.  The reader's framing behaviour over that stream is what
claim C8 is about; the registry is a parameter, as `transcode.msgin_decodeinfo`
is for the loop. -/

inductive SerialIn where
  | byte (b : Nat)
  | timeout
  | fail
deriving DecidableEq, Repr

/-- One `msgin_decodeinfo` registry entry: total frame length including the
id byte, and the decoder (`none` models a decoder that raises). -/
structure RegEntry (Msg : Type) where
  message_length : Nat
  decode : List Nat → Option Msg

/-- Events the worker emits: `bytesDropped`, the decode-failure
`errorOccurred` (after which the loop continues), a dispatched decoded
message, and the fatal read `errorOccurred` (after which the loop breaks). -/
inductive REvent (Msg : Type) where
  | dropped (id : Nat)
  | decodeFailed (id : Nat)
  | dispatched (id : Nat) (m : Msg)
  | readError
deriving DecidableEq, Repr

/-- `self.ser.read(k)`: collect bytes until `k` bytes arrive, a timeout cuts
the read short, or the read raises (third component true; bytes lost). -/
def readN : Nat → List SerialIn → List Nat × List SerialIn × Bool
  | 0, s => ([], s, false)
  | _ + 1, [] => ([], [], false)
  | k + 1, SerialIn.byte b :: s =>
      match readN k s with
      | (bs, r, f) => (b :: bs, r, f)
  | _ + 1, SerialIn.timeout :: s => ([], s, false)
  | _ + 1, SerialIn.fail :: s => ([], s, true)

theorem readN_length_le :
    ∀ (k : Nat) (s : List SerialIn), (readN k s).2.1.length ≤ s.length := by
  intro k
  induction k with
  | zero => intro s; simp [readN]
  | succ k ih =>
    intro s
    cases s with
    | nil => simp [readN]
    | cons x s =>
      cases x with
      | byte b =>
        have := ih s
        simp only [readN]
        cases h : readN k s with
        | mk bs rf =>
          rw [h] at this
          simpa using Nat.le_succ_of_le this
      | timeout => simp [readN]
      | fail => simp [readN]

/-- The reader loop of `SerialWorker.run`, with explicit fuel; every
iteration consumes at least one stream element, so `s.length` fuel
suffices. -/
def runReaderFuel {Msg : Type} (reg : Nat → Option (RegEntry Msg)) :
    Nat → List SerialIn → List (REvent Msg)
  | 0, _ => []
  | _ + 1, [] => []
  | _ + 1, SerialIn.fail :: _ => [REvent.readError]
  | fuel + 1, SerialIn.timeout :: s => runReaderFuel reg fuel s
  | fuel + 1, SerialIn.byte b :: s =>
      match reg b with
      | none => REvent.dropped b :: runReaderFuel reg fuel s
      | some entry =>
          match readN (entry.message_length - 1) s with
          | (_, _, true) => [REvent.readError]
          | (payload, s2, false) =>
              if payload.length = entry.message_length - 1 then
                match entry.decode payload with
                | some m => REvent.dispatched b m :: runReaderFuel reg fuel s2
                | none => REvent.decodeFailed b :: runReaderFuel reg fuel s2
              else
                REvent.dropped b :: runReaderFuel reg fuel s2

def runReader {Msg : Type} (reg : Nat → Option (RegEntry Msg))
    (s : List SerialIn) : List (REvent Msg) :=
  runReaderFuel reg s.length s

theorem runReaderFuel_congr {Msg : Type} (reg : Nat → Option (RegEntry Msg)) :
    ∀ (f1 : Nat) (f2 : Nat) (s : List SerialIn),
      s.length ≤ f1 → s.length ≤ f2 →
      runReaderFuel reg f1 s = runReaderFuel reg f2 s := by
  intro f1
  induction f1 with
  | zero =>
    intro f2 s h1 _
    have : s = [] := List.length_eq_zero.mp (by omega)
    subst this
    cases f2 <;> rfl
  | succ f1 ih =>
    intro f2 s h1 h2
    cases s with
    | nil => cases f2 <;> rfl
    | cons x s =>
      obtain ⟨f2p, rfl⟩ : ∃ f2p, f2 = f2p + 1 := by
        cases f2 with
        | zero => simp at h2
        | succ n => exact ⟨n, rfl⟩
      cases x with
      | fail => rfl
      | timeout =>
        simp only [List.length_cons] at h1 h2
        exact ih f2p s (by omega) (by omega)
      | byte b =>
        simp only [List.length_cons] at h1 h2
        simp only [runReaderFuel]
        cases hr : reg b with
        | none =>
          dsimp only
          rw [ih f2p s (by omega) (by omega)]
        | some entry =>
          dsimp only
          have hle := readN_length_le (entry.message_length - 1) s
          cases hrn : readN (entry.message_length - 1) s with
          | mk payload rf =>
            cases rf with
            | mk s2 f =>
              rw [hrn] at hle
              simp only at hle
              cases f with
              | true => rfl
              | false =>
                dsimp only
                have hs2 : s2.length ≤ s.length := hle
                by_cases hpl : payload.length = entry.message_length - 1
                · rw [if_pos hpl, if_pos hpl]
                  cases entry.decode payload with
                  | some m => rw [ih f2p s2 (by omega) (by omega)]
                  | none => rw [ih f2p s2 (by omega) (by omega)]
                · rw [if_neg hpl, if_neg hpl]
                  rw [ih f2p s2 (by omega) (by omega)]

theorem readN_exact :
    ∀ (payload : List Nat) (s : List SerialIn),
      readN payload.length (payload.map SerialIn.byte ++ s) =
        (payload, s, false) := by
  intro payload
  induction payload with
  | nil => intro s; simp [readN]
  | cons b bs ih =>
    intro s
    simp [readN, ih]

theorem readN_short :
    ∀ (k : Nat) (payload : List Nat) (s : List SerialIn),
      payload.length < k →
      readN k (payload.map SerialIn.byte ++ SerialIn.timeout :: s) =
        (payload, s, false) := by
  intro k payload
  induction payload generalizing k with
  | nil =>
    intro s h
    obtain ⟨kp, rfl⟩ : ∃ kp, k = kp + 1 := by
      cases k with
      | zero => simp at h
      | succ n => exact ⟨n, rfl⟩
    simp [readN]
  | cons b bs ih =>
    intro s h
    obtain ⟨kp, rfl⟩ : ∃ kp, k = kp + 1 := by
      cases k with
      | zero => simp at h
      | succ n => exact ⟨n, rfl⟩
    simp only [List.length_cons] at h
    simp [readN, ih kp s (by omega)]

/-! ### Claim C8 -/

theorem reader_unknown_id {Msg : Type} (reg : Nat → Option (RegEntry Msg))
    (b : Nat) (s : List SerialIn) (hb : reg b = none) :
    runReader reg (SerialIn.byte b :: s) =
      REvent.dropped b :: runReader reg s := by
  show runReaderFuel reg (s.length + 1) (SerialIn.byte b :: s) = _
  simp only [runReaderFuel, hb]
  rfl

theorem reader_known_id {Msg : Type} (reg : Nat → Option (RegEntry Msg))
    (b : Nat) (entry : RegEntry Msg) (payload : List Nat) (m : Msg)
    (s : List SerialIn) (hb : reg b = some entry)
    (hlen : payload.length = entry.message_length - 1)
    (hdec : entry.decode payload = some m) :
    runReader reg (SerialIn.byte b :: (payload.map SerialIn.byte ++ s)) =
      REvent.dispatched b m :: runReader reg s := by
  show runReaderFuel reg ((payload.map SerialIn.byte ++ s).length + 1)
    (SerialIn.byte b :: (payload.map SerialIn.byte ++ s)) = _
  simp only [runReaderFuel, hb]
  rw [← hlen, readN_exact]
  dsimp only
  rw [if_pos rfl, hdec]
  dsimp only
  rw [runReader]
  congr 1
  exact runReaderFuel_congr reg _ _ s (by simp) (le_refl _)

theorem reader_short_read {Msg : Type} (reg : Nat → Option (RegEntry Msg))
    (b : Nat) (entry : RegEntry Msg) (payload : List Nat)
    (s : List SerialIn) (hb : reg b = some entry)
    (hshort : payload.length + 1 < entry.message_length) :
    runReader reg (SerialIn.byte b ::
        (payload.map SerialIn.byte ++ SerialIn.timeout :: s)) =
      REvent.dropped b :: runReader reg s := by
  show runReaderFuel reg
    ((payload.map SerialIn.byte ++ SerialIn.timeout :: s).length + 1)
    (SerialIn.byte b :: (payload.map SerialIn.byte ++ SerialIn.timeout :: s)) = _
  simp only [runReaderFuel, hb]
  rw [readN_short (entry.message_length - 1) payload s (by omega)]
  dsimp only
  rw [if_neg (by omega)]
  rw [runReader]
  congr 1
  exact runReaderFuel_congr reg _ _ s (by simp; omega) (le_refl _)

/-- C8: in the background reader loop, an unregistered id byte consumes
exactly that one byte, reports exactly one drop event and resumes at the
next byte; a registered id reads exactly `length - 1` further bytes and
dispatches the decoded message; a short payload read (timeout) yields one
dropped-message event and the reader continues rather than terminating —
so a well-formed frame following either kind of garbage is still decoded
and dispatched. -/
theorem claim_C8 {Msg : Type} (reg : Nat → Option (RegEntry Msg)) :
    (∀ (b : Nat) (s : List SerialIn), reg b = none →
       runReader reg (SerialIn.byte b :: s) =
         REvent.dropped b :: runReader reg s) ∧
    (∀ (b : Nat) (entry : RegEntry Msg) (payload : List Nat) (m : Msg)
       (s : List SerialIn),
       reg b = some entry → payload.length = entry.message_length - 1 →
       entry.decode payload = some m →
       runReader reg (SerialIn.byte b :: (payload.map SerialIn.byte ++ s)) =
         REvent.dispatched b m :: runReader reg s) ∧
    (∀ (b : Nat) (entry : RegEntry Msg) (payload : List Nat)
       (s : List SerialIn),
       reg b = some entry → payload.length + 1 < entry.message_length →
       runReader reg (SerialIn.byte b ::
           (payload.map SerialIn.byte ++ SerialIn.timeout :: s)) =
         REvent.dropped b :: runReader reg s) ∧
    (∀ (bU b : Nat) (entry : RegEntry Msg) (payload : List Nat) (m : Msg)
       (s : List SerialIn),
       reg bU = none → reg b = some entry →
       payload.length = entry.message_length - 1 →
       entry.decode payload = some m →
       runReader reg (SerialIn.byte bU ::
           (SerialIn.byte b :: (payload.map SerialIn.byte ++ s))) =
         REvent.dropped bU :: REvent.dispatched b m :: runReader reg s) ∧
    (∀ (b1 b : Nat) (entry1 entry : RegEntry Msg) (pl1 payload : List Nat)
       (m : Msg) (s : List SerialIn),
       reg b1 = some entry1 → pl1.length + 1 < entry1.message_length →
       reg b = some entry → payload.length = entry.message_length - 1 →
       entry.decode payload = some m →
       runReader reg (SerialIn.byte b1 :: (pl1.map SerialIn.byte ++
           SerialIn.timeout ::
           (SerialIn.byte b :: (payload.map SerialIn.byte ++ s)))) =
         REvent.dropped b1 :: REvent.dispatched b m :: runReader reg s) := by
  refine ⟨reader_unknown_id reg, reader_known_id reg, reader_short_read reg,
    ?_, ?_⟩
  · intro bU b entry payload m s hU hb hlen hdec
    rw [reader_unknown_id reg bU _ hU,
      reader_known_id reg b entry payload m s hb hlen hdec]
  · intro b1 b entry1 entry pl1 payload m s h1 hshort hb hlen hdec
    rw [reader_short_read reg b1 entry1 pl1 _ h1 hshort,
      reader_known_id reg b entry payload m s hb hlen hdec]

/-- A toy registry exercising C8: id 7 carries a 3-byte frame whose 2-byte
payload decodes to its little-endian value. -/
def regW : Nat → Option (RegEntry Nat) := fun id =>
  if id = 7 then some ⟨3, fun p => some (natOfBytes p)⟩ else none

theorem claim_C8_witness :
    (regW 9 = none ∧
     runReader regW [SerialIn.byte 9] =
       [REvent.dropped 9] ∧
     regW 7 = some ⟨3, fun p => some (natOfBytes p)⟩) ∧
    runReader regW
        [SerialIn.byte 9, SerialIn.byte 7, SerialIn.byte 1,
         SerialIn.byte 2] =
      [REvent.dropped 9, REvent.dispatched 7 513] := by
  refine ⟨⟨by rfl, ?_, by rfl⟩, ?_⟩
  · rw [(claim_C8 regW).1 9 [] (by rfl)]
    rfl
  · have h := (claim_C8 regW).2.2.2.1 9 7 ⟨3, fun p => some (natOfBytes p)⟩
      [1, 2] 513 [] (by rfl) (by rfl) (by rfl) (by rfl)
    simpa using h

/-! ### Device discovery (`PulseGenerator.get_connected_devices` /
`_try_handshake`)

The inbound registry `transcode.msgin_decodeinfo` is modelled from the spec
(the module is absent from src/): one-byte ids mapping to total frame length
and the corresponding spec-modelled decoder of §4.2, wrapped into one tagged
union.  The ids themselves are part of the spec's open question and chosen
arbitrarily. -/

inductive InMsg where
  | devicestate (m : DeviceState)
  | powerlinestate (m : PowerlineState)
  | devicestate_extras (m : DeviceStateExtras)
  | notification (m : Notification)
  | echo (m : EchoMsg)
  | easyprint (m : EasyPrint)
  | errorMsg (m : ErrorMsg)
deriving DecidableEq, Repr

/-- Modelled from the spec: `transcode.msgin_decodeinfo`, the process-wide
read-only id → {frame length, decoder} registry (§4.2, §9).  The spec's
decoders are total over well-formed fixed-length payloads, so none of them
raises. -/
def msgin_decodeinfo : Nat → Option (RegEntry InMsg) := fun id =>
  if id = 150 then
    some ⟨31, fun p => some (InMsg.devicestate (decode_devicestate p))⟩
  else if id = 151 then
    some ⟨19, fun p => some (InMsg.powerlinestate (decode_powerlinestate p))⟩
  else if id = 152 then
    some ⟨9, fun p =>
      some (InMsg.devicestate_extras (decode_devicestate_extras p))⟩
  else if id = 153 then
    some ⟨14, fun p => some (InMsg.notification (decode_notification p))⟩
  else if id = 154 then
    some ⟨13, fun p => some (InMsg.echo (decode_echo_reply p))⟩
  else if id = 155 then
    some ⟨17, fun p => some (InMsg.easyprint (decode_easyprint p))⟩
  else if id = 156 then
    some ⟨17, fun p => some (InMsg.errorMsg (decode_error_msg p))⟩
  else none

/-- Device metadata captured from a matching echo reply. -/
structure EchoMeta where
  device_type : Nat
  hardware_version : Nat
  firmware_version : Nat
  serial_number : Nat
deriving DecidableEq, Repr

inductive SerialFault where
  | readFault
deriving DecidableEq, Repr

/-- The `while time.time() - t0 < timeout_s` scan loop of `_try_handshake`,
with the bounded timeout modelled as the finite stream (fuel): running out
means the loop times out and the probe reports unvalidated.  Only `s.open()`
is guarded by a try/except in the source; a read that raises inside the
loop propagates (`.error`). -/
def scanFuel : Nat → List SerialIn → Except SerialFault (Option EchoMeta)
  | 0, _ => .ok none
  | _ + 1, [] => .ok none
  | fuel + 1, SerialIn.timeout :: s => scanFuel fuel s
  | _ + 1, SerialIn.fail :: _ => .error SerialFault.readFault
  | fuel + 1, SerialIn.byte b :: s =>
      match msgin_decodeinfo b with
      | none => scanFuel fuel s
      | some entry =>
          match readN (entry.message_length - 1) s with
          | (_, _, true) => .error SerialFault.readFault
          | (payload, s2, false) =>
              if payload.length ≠ entry.message_length - 1 then
                scanFuel fuel s2
              else
                match entry.decode payload with
                | some (InMsg.echo e) =>
                    if e.echoed_byte = 209 then
                      .ok (some ⟨e.device_type, e.hardware_version,
                        e.firmware_version, e.serial_number⟩)
                    else scanFuel fuel s2
                | _ => scanFuel fuel s2

/-- One enumerated serial port: its identifying name, USB vendor/product
ids, whether `open()` succeeds, and the byte stream the probe observes. -/
structure PortCandidate where
  name : Nat
  vid : Option Nat
  pid : Option Nat
  openOk : Bool
  stream : List SerialIn
deriving DecidableEq, Repr

/-- `_try_handshake`: an `open()` failure is caught and reported as
unvalidated (`.ok none`); faults after a successful open propagate. -/
def tryHandshake (p : PortCandidate) : Except SerialFault (Option EchoMeta) :=
  if p.openOk then scanFuel p.stream.length p.stream else .ok none

/-- The accumulation loop of `get_connected_devices`. -/
def scanPorts : List PortCandidate →
    Except SerialFault (List (Nat × EchoMeta) × List Nat)
  | [] => .ok ([], [])
  | p :: ps =>
      match tryHandshake p with
      | .error e => .error e
      | .ok r =>
          match scanPorts ps with
          | .error e => .error e
          | .ok (vs, us) =>
              match r with
              | some meta => .ok ((p.name, meta) :: vs, us)
              | none => .ok (vs, p.name :: us)

/-- `get_connected_devices`: filter the enumerated ports by the fixed
vendor/product pair (1027, 24592), probe each in order. -/
def get_connected_devices (ports : List PortCandidate) :
    Except SerialFault (List (Nat × EchoMeta) × List Nat) :=
  scanPorts (ports.filter
    (fun p => p.vid == some 1027 && p.pid == some 24592))

/-! ### Claim C9 -/

def badPort : PortCandidate :=
  ⟨5, some 1027, some 24592, true, [SerialIn.fail]⟩

def unreachablePort : PortCandidate :=
  ⟨6, some 1027, some 24592, false, []⟩

def goodPort : PortCandidate :=
  ⟨7, some 1027, some 24592, true,
   SerialIn.byte 154 ::
     (encode_echo_reply ⟨209, 2, 3, 7, 99⟩).map SerialIn.byte⟩

/-- C9: the claim says `get_connected_devices()` never raises because of
one unreachable, busy or misbehaving candidate port.  A port that fails to
open is indeed classified unvalidated and a well-behaved port validated with
its metadata captured (second conjunct), but only the `s.open()` call of
`_try_handshake` is guarded: a `SerialException` raised by a read after a
successful open (a device unplugged mid-probe) propagates out of
`get_connected_devices`, and the remaining ports' results are lost (first
and third conjuncts). -/
theorem claim_C9_bug :
    get_connected_devices [badPort] = .error SerialFault.readFault ∧
    get_connected_devices [unreachablePort, goodPort] =
      .ok ([(7, ⟨2, 3, 7, 99⟩)], [6]) ∧
    get_connected_devices [badPort, goodPort] =
      .error SerialFault.readFault := by
  refine ⟨by rfl, by rfl, by rfl⟩

end NDPulseGen
